import Mathlib

/-
  Verification of the key-synth repository: a shallow embedding in Lean 4 of
  the MIDI message codec (midi_message.rs), the additive-synthesis voice
  (synth_voice.rs), the voice pool / synth engine (synth.rs) and the MIDI
  connection manager (midi_reader.rs), together with theorems settling the
  specification claims about them.

  Conventions of the embedding:
  - Rust u8 / u16 / usize values are modelled as Nat; raw MIDI frames are
    lists of bytes (Nat, each below 256 at call sites).
  - Rust f32 values are modelled as real numbers; the trigonometric sample
    computation uses Real.sin and Real.pi.
  - A slice read that can panic (index out of bounds) is modelled by
    List.get?, with the whole computation in Option: a result of none means
    the Rust code panics on that input.
  - The fixed arrays (8 voices, 88 key states, 5 overtones) are modelled as
    lists; the operations preserve their lengths, which is carried as an
    explicit well-formedness predicate.
-/

set_option linter.unnecessarySimpa false

namespace KeySynth

/-! ### List index helper lemmas used throughout -/

theorem listGetD_of_le (l : List α) (d : α) {i : Nat} (h : l.length ≤ i) :
    l.getD i d = d := by
  induction l generalizing i with
  | nil => simp [List.getD]
  | cons a t ih =>
    cases i with
    | zero => simp at h
    | succ j =>
      simp only [List.length_cons, Nat.succ_le_succ_iff] at h
      simpa [List.getD] using ih h

theorem listGetD_set_self (l : List α) (i : Nat) (a d : α) (h : i < l.length) :
    (l.set i a).getD i d = a := by
  induction l generalizing i with
  | nil => simp at h
  | cons b t ih =>
    cases i with
    | zero => simp [List.getD]
    | succ j =>
      simp only [List.length_cons, Nat.succ_lt_succ_iff] at h
      simpa using ih j h

theorem listGetD_set_ne (l : List α) (i j : Nat) (a d : α) (h : i ≠ j) :
    (l.set i a).getD j d = l.getD j d := by
  induction l generalizing i j with
  | nil => simp [List.set]
  | cons b t ih =>
    cases i with
    | zero =>
      cases j with
      | zero => exact absurd rfl h
      | succ j' => simp [List.getD, List.set]
    | succ i' =>
      cases j with
      | zero => simp [List.getD, List.set]
      | succ j' =>
        have hij : i' ≠ j' := fun hc => h (by rw [hc])
        simpa using ih i' j' hij

theorem listGetD_map (f : α → β) (l : List α) (i : Nat) (d : α) (h : i < l.length) :
    (l.map f).getD i (f d) = f (l.getD i d) := by
  induction l generalizing i with
  | nil => simp at h
  | cons b t ih =>
    cases i with
    | zero => simp [List.getD]
    | succ j =>
      simp only [List.length_cons, Nat.succ_lt_succ_iff] at h
      simpa [List.getD] using ih j h

theorem listGetD_replicate (n : Nat) (a d : α) (i : Nat) (h : i < n) :
    (List.replicate n a).getD i d = a := by
  induction n generalizing i with
  | zero => simp at h
  | succ m ih =>
    cases i with
    | zero => simp [List.getD, List.replicate]
    | succ j =>
      have hj : j < m := Nat.succ_lt_succ_iff.mp h
      simpa [List.getD, List.replicate] using ih j hj

/-! ### MIDI message codec (midi_message.rs) -/

structure MidiKeyEvent where
  key : Nat
  pressure : Nat
  deriving DecidableEq, Repr

structure MidiControlEvent where
  control : Nat
  value : Nat
  deriving DecidableEq, Repr

structure MidiProgramChangeEvent where
  number : Nat
  deriving DecidableEq, Repr

structure MidiAftertouchEvent where
  pressure : Nat
  deriving DecidableEq, Repr

structure MidiPitchEvent where
  wheel : Nat
  deriving DecidableEq, Repr

structure MidiSysExEvent where
  data : Nat × Nat
  deriving DecidableEq, Repr

inductive MidiMessage where
  | PortConnected
  | PortDisconnected
  | Invalid
  | NoteOn (chan : Nat) (ev : MidiKeyEvent)
  | NoteOff (chan : Nat) (ev : MidiKeyEvent)
  | PolyAfertouch (chan : Nat) (ev : MidiKeyEvent)
  | ControlChange (chan : Nat) (ev : MidiControlEvent)
  | ProgramChange (chan : Nat) (ev : MidiProgramChangeEvent)
  | ChannelAftertouch (chan : Nat) (ev : MidiAftertouchEvent)
  | PitchWheel (chan : Nat) (ev : MidiPitchEvent)
  | SysEx (chan : Nat) (ev : MidiSysExEvent)
  deriving DecidableEq, Repr

/-- Shallow embedding of MidiMessage::decode.  Every slice index of the Rust
code is rendered as List.get? inside the Option monad, so that a none result
marks exactly the inputs on which the Rust code panics with an out-of-bounds
slice access.  The byte arithmetic follows the source: channel is
(data[0] and 0x0f) + 1, the event kind is selected by data[0] and 0xf0, and
the pitch-wheel value is ((data[2] as u16) shifted left by 8) or-ed with
data[1]. -/
def MidiMessage.decode (data : List Nat) : Option MidiMessage := do
  let b0 ← data.get? 0
  let chan := (b0 &&& 0x0f) + 1
  match b0 &&& 0xf0 with
  | 0x80 =>
    if 3 ≤ data.length then do
      let d1 ← data.get? 1
      let d2 ← data.get? 2
      pure (.NoteOff chan ⟨d1, d2⟩)
    else pure .Invalid
  | 0x90 =>
    if 3 ≤ data.length then do
      let d1 ← data.get? 1
      let d2 ← data.get? 2
      pure (.NoteOn chan ⟨d1, d2⟩)
    else pure .Invalid
  | 0xA0 =>
    if 3 ≤ data.length then do
      let d1 ← data.get? 1
      let d2 ← data.get? 2
      pure (.PolyAfertouch chan ⟨d1, d2⟩)
    else pure .Invalid
  | 0xB0 =>
    if 3 ≤ data.length then do
      let d1 ← data.get? 1
      let d2 ← data.get? 2
      pure (.ControlChange chan ⟨d1, d2⟩)
    else pure .Invalid
  | 0xC0 =>
    if 2 ≤ data.length then do
      let d1 ← data.get? 1
      pure (.ProgramChange chan ⟨d1⟩)
    else pure .Invalid
  | 0xD0 =>
    if 2 ≤ data.length then do
      let d1 ← data.get? 1
      pure (.ChannelAftertouch chan ⟨d1⟩)
    else pure .Invalid
  | 0xE0 =>
    if 3 ≤ data.length then do
      let d1 ← data.get? 1
      let d2 ← data.get? 2
      pure (.PitchWheel chan ⟨(d2 <<< 8) ||| d1⟩)
    else pure .Invalid
  | 0xF0 => do
    let d1 ← data.get? 1
    let d2 ← data.get? 2
    pure (.SysEx chan ⟨(d1, d2)⟩)
  | _ => pure .Invalid

/-- C1: the claim states that decode is total on every raw MIDI byte frame,
including the empty frame and one- or two-byte SysEx frames, never panicking
or reading out of bounds.  The code contradicts this: it reads data[0]
unconditionally, so the empty frame panics, and the SysEx arm reads data[1]
and data[2] with no length check, so one- and two-byte 0xF0 frames panic
(decode evaluates to none in the embedding, marking an out-of-bounds read).
Short frames of the other recognised kinds do decode to Invalid, and an
unrecognised status nibble (a data byte below 0x80 in status position)
decodes to Invalid, as the claim says. -/
theorem decode_short_frame_panics :
    MidiMessage.decode [] = none ∧
    MidiMessage.decode [0xF0] = none ∧
    MidiMessage.decode [0xF0, 0x01] = none ∧
    MidiMessage.decode [0x80] = some .Invalid ∧
    MidiMessage.decode [0x90, 60] = some .Invalid ∧
    MidiMessage.decode [0xC0] = some .Invalid ∧
    MidiMessage.decode [0x35] = some .Invalid := by
  decide

/-- C2, counterexample: on the frame 0xE0 0x00 0x01 the code yields wheel
value (1 shifted left by 8) or 0 = 256, while the formula of the claim,
(data[1] and 0x7F) or ((data[2] and 0x7F) shifted left by 7), yields 128. -/
theorem decode_pitchwheel_shift7_counterexample :
    MidiMessage.decode [0xE0, 0x00, 0x01] = some (.PitchWheel 1 ⟨256⟩) ∧
    ((0x00 &&& 0x7F) ||| ((0x01 &&& 0x7F) <<< 7) : Nat) = 128 ∧
    (256 : Nat) ≠ 128 := by
  decide

/-- C2, amended: for every frame of at least 3 bytes whose status high nibble
is 0xE0, decode returns PitchWheel whose wheel value is the 16-bit
little-endian packing of the two data bytes with no 0x7F masking:
wheel = data[1] or (data[2] shifted left by 8); for data bytes below 256 the
value fits in 16 bits, so the u16 arithmetic of the source is exact. -/
theorem decode_pitchwheel_le16_packing (data : List Nat) (b0 d1 d2 : Nat)
    (h0 : data.get? 0 = some b0) (hs : b0 &&& 0xf0 = 0xE0)
    (hlen : 3 ≤ data.length)
    (h1 : data.get? 1 = some d1) (h2 : data.get? 2 = some d2)
    (hb1 : d1 < 256) (hb2 : d2 < 256) :
    MidiMessage.decode data =
      some (.PitchWheel ((b0 &&& 0x0f) + 1) ⟨(d2 <<< 8) ||| d1⟩) ∧
    (d2 <<< 8) ||| d1 < 65536 := by
  constructor
  · rw [List.get?_eq_getElem?] at h0 h1 h2
    simp [MidiMessage.decode, h0, hs, hlen, h1, h2]
  · have hs8 : d2 <<< 8 = d2 * 256 := by
      rw [Nat.shiftLeft_eq]
    have e : (2 : Nat) ^ 16 = 65536 := by norm_num
    have hx : d2 <<< 8 < 2 ^ 16 := by rw [hs8, e]; omega
    have hy : d1 < 2 ^ 16 := by rw [e]; omega
    have h := Nat.or_lt_two_pow hx hy
    rw [e] at h
    exact h

theorem decode_pitchwheel_le16_packing_witness :
    MidiMessage.decode [0xE0, 5, 7] =
      some (.PitchWheel ((0xE0 &&& 0x0f) + 1) ⟨(7 <<< 8) ||| 5⟩) ∧
    ((7 : Nat) <<< 8) ||| 5 < 65536 :=
  decode_pitchwheel_le16_packing [0xE0, 5, 7] 0xE0 5 7 (by decide) (by decide)
    (by decide) (by decide) (by decide) (by decide) (by decide)

/-! ### Voice / oscillator synthesis (synth_voice.rs)

The f32 fields of the Rust structures are modelled over an arbitrary linear
ordered field R with a floor function, so that all definitions stay
executable (concrete evaluation uses R = ℚ); the claims about the sample
computation are stated at R = ℝ with Real.sin for sin, 2 * Real.pi
for std::f32::consts::TAU and the real power function for f32::powf, which
enter the definitions as explicit function arguments. -/

structure SynthInstrumentOvertone (R : Type) where
  frequency : R
  loudness : R
  deriving DecidableEq

structure SynthInstrument (R : Type) where
  overtones : List (SynthInstrumentOvertone R)
  decay : R
  deriving DecidableEq

/-- Embedding of the PIANO preset of SynthInstrument (decay 0.99, five
overtones with the listed frequency ratios and loudnesses). -/
def SynthInstrument.PIANO {R : Type} [LinearOrderedField R] : SynthInstrument R :=
  { decay := 99 / 100,
    overtones := [⟨1, 1⟩, ⟨2, 1 / 2⟩, ⟨3, 8 / 10⟩, ⟨4, 1 / 10⟩, ⟨5, 3 / 10⟩] }

structure SynthVoice (R : Type) where
  active : Bool
  stopping : Bool
  key : Nat
  freq : R
  volume : R
  tick : R
  instrument : SynthInstrument R
  overtones : List (R × R)
  deriving DecidableEq

def SynthVoice.SAMPLE_RATE : Nat := 48000

def SynthVoice.BUFFER_SIZE : Nat := 1024

/-- Embedding of SynthVoice::EMPTY. -/
def SynthVoice.EMPTY {R : Type} [LinearOrderedField R] : SynthVoice R :=
  { active := false, stopping := false, key := 0, freq := 0, volume := 0,
    tick := 0, instrument := .PIANO, overtones := List.replicate 5 (0, 0) }

instance {R : Type} [LinearOrderedField R] : Inhabited (SynthVoice R) :=
  ⟨SynthVoice.EMPTY⟩

/-- Embedding of SynthVoice::get_midi_note_frequency; pow2 stands for the
f32 function x goes to 2.0.powf(x). -/
def SynthVoice.get_midi_note_frequency {R : Type} [LinearOrderedField R]
    (pow2 : R → R) (note : ℤ) : R :=
  440 * pow2 (((note - 69 : ℤ) : R) / 12)

/-- Embedding of SynthVoice::update_overtones: each slot of the voice's
overtone table becomes (instrument ratio times current fundamental,
instrument loudness). -/
def SynthVoice.update_overtones {R : Type} [LinearOrderedField R]
    (v : SynthVoice R) : SynthVoice R :=
  { v with overtones :=
      v.instrument.overtones.map fun o => (o.frequency * v.freq, o.loudness) }

/-- Embedding of SynthVoice::start. -/
def SynthVoice.start {R : Type} [LinearOrderedField R] (pow2 : R → R)
    (v : SynthVoice R) (key pressure : Nat) : SynthVoice R :=
  SynthVoice.update_overtones
    { v with key := key, active := true, stopping := false, tick := 0,
             volume := (pressure : R) / 127,
             freq := SynthVoice.get_midi_note_frequency pow2 (key : ℤ) }

/-- Embedding of SynthVoice::stop. -/
def SynthVoice.stop {R : Type} (v : SynthVoice R) : SynthVoice R :=
  { v with stopping := true }

/-- Embedding of SynthVoice::set_instrument. -/
def SynthVoice.set_instrument {R : Type} [LinearOrderedField R]
    (v : SynthVoice R) (instrument : SynthInstrument R) : SynthVoice R :=
  SynthVoice.update_overtones { v with instrument := instrument }

/-- Rounding of f32::round: round to the nearest integer, halfway cases away
from zero (Mathlib's round is round-half-up, so negative values are rounded
through their negation). -/
def rust_round {R : Type} [LinearOrderedField R] [FloorRing R] (x : R) : ℤ :=
  if 0 ≤ x then round x else -(round (-x))

/-- Embedding of val.clamp(i16::MIN as f32, i16::MAX as f32). -/
def clamp_i16 {R : Type} [LinearOrderedField R] (x : R) : R :=
  max (-32768) (min 32767 x)

/-- Embedding of i16::saturating_add on the integer model of i16. -/
def i16_saturating_add (a b : ℤ) : ℤ :=
  max (-32768) (min 32767 (a + b))

/-- Embedding of the sample loop of SynthVoice::gen_samples: walks the
buffer, adding into each sample the clamped and rounded overtone mix while
advancing the phase t by one and the loop-local volume by vol_delta per
sample; returns the written buffer together with the final t and volume. -/
def SynthVoice.gen_samples_loop {R : Type} [LinearOrderedField R] [FloorRing R]
    (sinR : R → R) (tau : R) (ov : List (R × R)) (vol_delta : R) :
    R → R → List ℤ → List ℤ × R × R
  | t, _volume, [] => ([], t, _volume)
  | t, volume, spl :: rest =>
    let val := ov.foldl
      (fun acc fm => acc + sinR (t * tau / 48000 * fm.1) * fm.2 * 3000 * volume) 0
    let spl' := i16_saturating_add spl (rust_round (clamp_i16 val))
    let r := SynthVoice.gen_samples_loop sinR tau ov vol_delta (t + 1)
      (volume + vol_delta) rest
    (spl' :: r.1, r.2)

/-- Embedding of SynthVoice::gen_samples.  The state effect follows the
source exactly: tick advances to the final t; when stopping the voice is
deactivated (volume field untouched), otherwise the stored volume is
multiplied by the instrument decay once for the whole buffer. -/
def SynthVoice.gen_samples {R : Type} [LinearOrderedField R] [FloorRing R]
    (sinR : R → R) (tau : R) (v : SynthVoice R) (data : List ℤ) :
    SynthVoice R × List ℤ :=
  let vol_delta : R := if v.stopping then -v.volume / (data.length : R) else 0
  let r := SynthVoice.gen_samples_loop sinR tau v.overtones vol_delta
    v.tick v.volume data
  ({ v with tick := r.2.1,
            active := if v.stopping then false else v.active,
            volume := if v.stopping then v.volume
                      else v.volume * v.instrument.decay },
   r.1)

/-- C8: for every voice, MIDI note and pressure, start sets the fundamental
to 440 * 2 ^ ((note - 69) / 12) (the real power function standing for
f32::powf), so note 69 maps to 440 and note 81 to 880; sets the initial
volume to pressure / 127; resets the phase accumulator (tick) to zero; marks
the voice active; and sets each derived overtone to (frequency ratio times
the new fundamental, loudness). -/
theorem start_frequency_volume_phase (v : SynthVoice ℝ) (key pressure : Nat) :
    ((v.start (fun x => (2 : ℝ) ^ x) key pressure).freq =
        440 * (2 : ℝ) ^ (((key : ℝ) - 69) / 12)) ∧
    (v.start (fun x => (2 : ℝ) ^ x) key pressure).active = true ∧
    (v.start (fun x => (2 : ℝ) ^ x) key pressure).volume = (pressure : ℝ) / 127 ∧
    (v.start (fun x => (2 : ℝ) ^ x) key pressure).tick = 0 ∧
    ((v.start (fun x => (2 : ℝ) ^ x) key pressure).overtones =
      v.instrument.overtones.map fun o =>
        (o.frequency * (440 * (2 : ℝ) ^ (((key : ℝ) - 69) / 12)), o.loudness)) ∧
    SynthVoice.get_midi_note_frequency (fun x => (2 : ℝ) ^ x) 69 = 440 ∧
    SynthVoice.get_midi_note_frequency (fun x => (2 : ℝ) ^ x) 81 = 880 := by
  have hfreq : ∀ n : ℤ, SynthVoice.get_midi_note_frequency
      (fun x => (2 : ℝ) ^ x) n = 440 * (2 : ℝ) ^ (((n : ℝ) - 69) / 12) := by
    intro n
    simp [SynthVoice.get_midi_note_frequency]
  have h69 : SynthVoice.get_midi_note_frequency (fun x => (2 : ℝ) ^ x) 69 = 440 := by
    rw [hfreq]
    norm_num
  have h81 : SynthVoice.get_midi_note_frequency (fun x => (2 : ℝ) ^ x) 81 = 880 := by
    rw [hfreq]
    norm_num
  refine ⟨?_, rfl, rfl, rfl, ?_, h69, h81⟩
  · simp [SynthVoice.start, SynthVoice.update_overtones, hfreq]
  · simp [SynthVoice.start, SynthVoice.update_overtones, hfreq]

/-! ### The per-sample closed form of gen_samples, following the words of
the specification, and the proof that the loop of the source computes it. -/

/-- Spec-side formula: the per-overtone sine sum
sum over overtones of sin(phase * tau * freq / rate) * loudness. -/
def spec_overtone_mix {R : Type} (sinR : R → R) (tau : R) [LinearOrderedField R]
    (ov : List (R × R)) (rate : R) (phase : R) : R :=
  (ov.map fun fm => sinR (phase * tau / rate * fm.1) * fm.2).sum

/-- Spec-side formula: the volume in effect at sample i of a buffer of
length len; if the voice is stopping it ramps linearly from the current
volume towards zero across exactly len samples, otherwise it is the current
volume throughout. -/
def spec_volume_at {R : Type} [LinearOrderedField R]
    (v : SynthVoice R) (len i : Nat) : R :=
  if v.stopping then v.volume + (i : R) * (-v.volume / (len : R)) else v.volume

/-- Spec-side formula for the whole buffer, starting at sample index i: each
output sample is the saturating addition of the prior buffer content with
the overtone mix scaled by the in-effect volume and the fixed gain constant
3000, clamped to the i16 range. -/
def spec_samples {R : Type} [LinearOrderedField R] [FloorRing R]
    (sinR : R → R) (tau : R) (v : SynthVoice R) (len : Nat) :
    Nat → List ℤ → List ℤ
  | _, [] => []
  | i, spl :: rest =>
    i16_saturating_add spl (rust_round (clamp_i16
      (spec_overtone_mix sinR tau v.overtones 48000 (v.tick + (i : R)) *
        spec_volume_at v len i * 3000))) ::
    spec_samples sinR tau v len (i + 1) rest

theorem foldl_add_mul {R : Type} [LinearOrderedField R] {α : Type}
    (g : α → R) (c : R) (l : List α) (a : R) :
    l.foldl (fun acc x => acc + g x * c) a = a + (l.map g).sum * c := by
  induction l generalizing a with
  | nil => simp
  | cons x xs ih =>
    simp only [List.foldl_cons, List.map_cons, List.sum_cons]
    rw [ih]
    ring

theorem gen_samples_loop_tick_vol_len {R : Type} [LinearOrderedField R]
    [FloorRing R] (sinR : R → R) (tau : R) (ov : List (R × R)) (vd : R) :
    ∀ (data : List ℤ) (t vol : R),
      (SynthVoice.gen_samples_loop sinR tau ov vd t vol data).2.1 =
        t + (data.length : R) ∧
      (SynthVoice.gen_samples_loop sinR tau ov vd t vol data).2.2 =
        vol + (data.length : R) * vd ∧
      (SynthVoice.gen_samples_loop sinR tau ov vd t vol data).1.length =
        data.length := by
  intro data
  induction data with
  | nil => intro t vol; simp [SynthVoice.gen_samples_loop]
  | cons s rest ih =>
    intro t vol
    obtain ⟨h1, h2, h3⟩ := ih (t + 1) (vol + vd)
    refine ⟨?_, ?_, ?_⟩
    · simp only [SynthVoice.gen_samples_loop, h1, List.length_cons]
      push_cast
      ring
    · simp only [SynthVoice.gen_samples_loop, h2, List.length_cons]
      push_cast
      ring
    · simp only [SynthVoice.gen_samples_loop, List.length_cons, h3]

theorem gen_samples_loop_eq_spec {R : Type} [LinearOrderedField R]
    [FloorRing R] (sinR : R → R) (tau : R) (v : SynthVoice R) (len : Nat)
    (vd : R) (hvd : vd = if v.stopping then -v.volume / (len : R) else 0) :
    ∀ (data : List ℤ) (i : Nat),
      (SynthVoice.gen_samples_loop sinR tau v.overtones vd
        (v.tick + (i : R)) (v.volume + (i : R) * vd) data).1 =
      spec_samples sinR tau v len i data := by
  intro data
  induction data with
  | nil => intro i; simp [SynthVoice.gen_samples_loop, spec_samples]
  | cons s rest ih =>
    intro i
    simp only [SynthVoice.gen_samples_loop, spec_samples]
    have hval : List.foldl
        (fun acc fm => acc + sinR ((v.tick + (i : R)) * tau / 48000 * fm.1) *
          fm.2 * 3000 * (v.volume + (i : R) * vd)) 0 v.overtones =
        spec_overtone_mix sinR tau v.overtones 48000 (v.tick + (i : R)) *
          spec_volume_at v len i * 3000 := by
      have hfun : (fun (acc : R) (fm : R × R) => acc +
          sinR ((v.tick + (i : R)) * tau / 48000 * fm.1) * fm.2 * 3000 *
            (v.volume + (i : R) * vd)) =
          fun (acc : R) (fm : R × R) => acc +
            (sinR ((v.tick + (i : R)) * tau / 48000 * fm.1) * fm.2) *
              (3000 * (v.volume + (i : R) * vd)) := by
        funext acc fm
        ring
      rw [hfun, foldl_add_mul
        (fun fm => sinR ((v.tick + (i : R)) * tau / 48000 * fm.1) * fm.2)
        (3000 * (v.volume + (i : R) * vd)) v.overtones 0]
      simp only [spec_overtone_mix, spec_volume_at]
      rcases hstop : v.stopping with _ | _ <;> rw [hvd, hstop] <;> simp <;> ring
    rw [hval]
    have htail := ih (i + 1)
    rw [show v.tick + (((i : Nat) + 1 : ℕ) : R) = v.tick + (i : R) + 1 by
          push_cast; ring,
        show v.volume + (((i : Nat) + 1 : ℕ) : R) * vd =
          v.volume + (i : R) * vd + vd by push_cast; ring] at htail
    exact congrArg _ htail

theorem gen_samples_state {R : Type} [LinearOrderedField R] [FloorRing R]
    (sinR : R → R) (tau : R) (v : SynthVoice R) (data : List ℤ) :
    (v.gen_samples sinR tau data).1 =
      { v with tick := v.tick + (data.length : R),
               active := if v.stopping then false else v.active,
               volume := if v.stopping then v.volume
                         else v.volume * v.instrument.decay } ∧
    (v.gen_samples sinR tau data).2.length = data.length := by
  obtain ⟨h1, _h2, h3⟩ := gen_samples_loop_tick_vol_len sinR tau v.overtones
    (if v.stopping then -v.volume / (data.length : R) else 0)
    data v.tick v.volume
  constructor
  · simp only [SynthVoice.gen_samples, h1]
  · simp only [SynthVoice.gen_samples, h3]

/-- C6: for every voice and non-empty buffer, gen_samples (with Real.sin
standing for f32 sin and 2 * pi for TAU) writes, at each index i, the
saturating i16 addition of the prior buffer content with the per-overtone
sine sum scaled by the in-effect volume and the fixed gain constant 3000 and
clamped to the i16 range, never overwriting the prior content; if the voice
is stopping, the in-effect volume ramps linearly from the current volume to
zero across exactly the buffer length (reaching zero at index len) and the
voice is inactive at buffer end; otherwise the stored volume is multiplied
by the instrument decay exactly once for the whole buffer and activity is
unchanged. -/
theorem gen_samples_mixes_additively (v : SynthVoice ℝ) (data : List ℤ)
    (h : 0 < data.length) :
    (v.gen_samples Real.sin (2 * Real.pi) data).2 =
      spec_samples Real.sin (2 * Real.pi) v data.length 0 data ∧
    (v.stopping = true →
      (v.gen_samples Real.sin (2 * Real.pi) data).1.active = false ∧
      spec_volume_at v data.length data.length = 0) ∧
    (v.stopping = false →
      (v.gen_samples Real.sin (2 * Real.pi) data).1.active = v.active ∧
      (v.gen_samples Real.sin (2 * Real.pi) data).1.volume =
        v.volume * v.instrument.decay) := by
  have hstate := (gen_samples_state Real.sin (2 * Real.pi) v data).1
  refine ⟨?_, ?_, ?_⟩
  · have hspec := gen_samples_loop_eq_spec Real.sin (2 * Real.pi) v
      data.length (if v.stopping then -v.volume / (data.length : ℝ) else 0)
      rfl data 0
    simp only [Nat.cast_zero, add_zero, zero_mul] at hspec
    simpa only [SynthVoice.gen_samples] using hspec
  · intro hs
    refine ⟨by rw [hstate]; simp [hs], ?_⟩
    have hlen : (data.length : ℝ) ≠ 0 := by
      exact_mod_cast Nat.pos_iff_ne_zero.mp h
    simp only [spec_volume_at, hs, if_true]
    field_simp
    ring
  · intro hs
    rw [hstate]
    simp [hs]

theorem gen_samples_mixes_additively_witness :
    0 < ([0] : List ℤ).length ∧
    (((SynthVoice.EMPTY : SynthVoice ℝ).gen_samples Real.sin
        (2 * Real.pi) [0]).2 =
      spec_samples Real.sin (2 * Real.pi) (SynthVoice.EMPTY : SynthVoice ℝ)
        ([0] : List ℤ).length 0 [0] ∧
    ((SynthVoice.EMPTY : SynthVoice ℝ).stopping = true →
      ((SynthVoice.EMPTY : SynthVoice ℝ).gen_samples Real.sin
        (2 * Real.pi) [0]).1.active = false ∧
      spec_volume_at (SynthVoice.EMPTY : SynthVoice ℝ)
        ([0] : List ℤ).length ([0] : List ℤ).length = 0) ∧
    ((SynthVoice.EMPTY : SynthVoice ℝ).stopping = false →
      ((SynthVoice.EMPTY : SynthVoice ℝ).gen_samples Real.sin
        (2 * Real.pi) [0]).1.active = (SynthVoice.EMPTY : SynthVoice ℝ).active ∧
      ((SynthVoice.EMPTY : SynthVoice ℝ).gen_samples Real.sin
        (2 * Real.pi) [0]).1.volume =
        (SynthVoice.EMPTY : SynthVoice ℝ).volume *
          (SynthVoice.EMPTY : SynthVoice ℝ).instrument.decay)) :=
  ⟨by decide, gen_samples_mixes_additively SynthVoice.EMPTY [0] (by decide)⟩

/-! ### Voice pool / synth engine (synth.rs)

SynthInner is the state behind the pool's mutex; the lock itself is a
concurrency primitive outside the embedding, so the operations are modelled
as pure state transformers applied in some serialisation order.  The public
SynthKeyboard entry points add the bounds guard of the source in front of
the inner operations. -/

inductive SynthKeyState where
  | Off
  | Playing (voice_index : Nat)
  | VoiceStolen
  deriving DecidableEq, Repr

structure SynthInner (R : Type) where
  voices : List (SynthVoice R)
  keys : List SynthKeyState
  next_voice : Nat
  midi_connected : Bool
  volume : R
  deriving DecidableEq

def SynthInner.MAX_VOICES : Nat := 8

def SynthInner.NUM_KEYS : Nat := 88

/-- Embedding of SynthInner::new. -/
def SynthInner.new {R : Type} [LinearOrderedField R] : SynthInner R :=
  { voices := List.replicate SynthInner.MAX_VOICES SynthVoice.EMPTY,
    keys := List.replicate SynthInner.NUM_KEYS .Off,
    next_voice := 0,
    midi_connected := false,
    volume := 7 / 10 }

/-- Embedding of the for-loop inside SynthInner::get_new_voice: the loop
body runs fuel times, first stepping the index forward one slot (mod
MAX_VOICES) and then breaking if that slot's voice is inactive; when the
fuel is exhausted the current index (which, started from next_voice with
fuel MAX_VOICES, has wrapped back to next_voice) is kept. -/
def SynthInner.find_steal {R : Type} [LinearOrderedField R]
    (voices : List (SynthVoice R)) : Nat → Nat → Nat
  | 0, vi => vi
  | fuel + 1, vi =>
    let vi' := (vi + 1) % SynthInner.MAX_VOICES
    if ¬(voices.getD vi' SynthVoice.EMPTY).active then vi'
    else SynthInner.find_steal voices fuel vi'

/-- Embedding of SynthInner::get_new_voice, returning the chosen voice index
together with the updated state (the advanced cursor). -/
def SynthInner.get_new_voice {R : Type} [LinearOrderedField R]
    (s : SynthInner R) : Nat × SynthInner R :=
  if ¬(s.voices.getD s.next_voice SynthVoice.EMPTY).active then
    (s.next_voice,
     { s with next_voice := (s.next_voice + 1) % SynthInner.MAX_VOICES })
  else
    let voice_index :=
      SynthInner.find_steal s.voices SynthInner.MAX_VOICES s.next_voice
    (voice_index,
     { s with next_voice := (voice_index + 1) % SynthInner.MAX_VOICES })

/-- Embedding of SynthInner::play_key.  Note: the call sites in synth.rs
pass a third argument self.volume to SynthVoice::start, while
synth_voice.rs declares start with two parameters (key, pressure) and
derives the voice volume from pressure alone; the two files are from
inconsistent revisions.  The embedding follows the definition of start in
synth_voice.rs, which is the authority for what start does. -/
def SynthInner.play_key {R : Type} [LinearOrderedField R] (pow2 : R → R)
    (s : SynthInner R) (key pressure : Nat) : SynthInner R :=
  match s.keys.getD key .Off with
  | .Playing voice_index =>
    { s with voices := s.voices.set voice_index
                ((s.voices.getD voice_index SynthVoice.EMPTY).start pow2 key pressure) }
  | _ =>
    let r := s.get_new_voice
    let voice_index := r.1
    let s1 := r.2
    let s2 :=
      if (s1.voices.getD voice_index SynthVoice.EMPTY).active then
        { s1 with keys := s1.keys.set
                    (s1.voices.getD voice_index SynthVoice.EMPTY).key .VoiceStolen }
      else s1
    { s2 with
        voices := s2.voices.set voice_index
          ((s2.voices.getD voice_index SynthVoice.EMPTY).start pow2 key pressure),
        keys := s2.keys.set key (.Playing voice_index) }

/-- Embedding of SynthInner::stop_key. -/
def SynthInner.stop_key {R : Type} [LinearOrderedField R]
    (s : SynthInner R) (key : Nat) : SynthInner R :=
  let s1 :=
    match s.keys.getD key .Off with
    | .Playing voice_index =>
      { s with voices := s.voices.set voice_index
                  (s.voices.getD voice_index SynthVoice.EMPTY).stop }
    | _ => s
  { s1 with keys := s1.keys.set key .Off }

/-- Embedding of SynthInner::set_instrument. -/
def SynthInner.set_instrument {R : Type} [LinearOrderedField R]
    (s : SynthInner R) (instrument : SynthInstrument R) : SynthInner R :=
  { s with voices := s.voices.map fun v => v.set_instrument instrument }

/-- Embedding of the body of the cpal output callback in
SynthKeyboard::open_sound_out: the buffer is zeroed and then every active
voice mixes into it with gen_samples, threading the buffer from voice to
voice. -/
def run_voices {R : Type} [LinearOrderedField R] [FloorRing R]
    (sinR : R → R) (tau : R) :
    List (SynthVoice R) → List ℤ → List (SynthVoice R) × List ℤ
  | [], buf => ([], buf)
  | v :: vs, buf =>
    if v.active then
      let r := v.gen_samples sinR tau buf
      let rest := run_voices sinR tau vs r.2
      (r.1 :: rest.1, rest.2)
    else
      let rest := run_voices sinR tau vs buf
      (v :: rest.1, rest.2)

/-- Embedding of one invocation of the audio callback on a buffer of len
samples. -/
def SynthInner.audio_callback {R : Type} [LinearOrderedField R] [FloorRing R]
    (sinR : R → R) (tau : R) (s : SynthInner R) (len : Nat) :
    SynthInner R × List ℤ :=
  let r := run_voices sinR tau s.voices (List.replicate len 0)
  ({ s with voices := r.1 }, r.2)

/-- Embedding of the public SynthKeyboard::play_key (the bounds guard in
front of the lock acquisition and inner call). -/
def SynthKeyboard.play_key {R : Type} [LinearOrderedField R] (pow2 : R → R)
    (s : SynthInner R) (key pressure : Nat) : SynthInner R :=
  if SynthInner.NUM_KEYS ≤ key then s
  else s.play_key pow2 key pressure

/-- Embedding of the public SynthKeyboard::stop_key. -/
def SynthKeyboard.stop_key {R : Type} [LinearOrderedField R]
    (s : SynthInner R) (key : Nat) : SynthInner R :=
  if SynthInner.NUM_KEYS ≤ key then s
  else s.stop_key key

/-- Well-formedness of a pool state: the fixed array lengths of the source
and the cursor range. -/
def SynthInner.WF {R : Type} (s : SynthInner R) : Prop :=
  s.voices.length = SynthInner.MAX_VOICES ∧
  s.keys.length = SynthInner.NUM_KEYS ∧
  s.next_voice < SynthInner.MAX_VOICES

instance {R : Type} (s : SynthInner R) : Decidable s.WF := by
  unfold SynthInner.WF
  infer_instance

theorem listGetD_default_irrel (l : List α) (i : Nat) (d d' : α)
    (h : i < l.length) : l.getD i d = l.getD i d' := by
  induction l generalizing i with
  | nil => simp at h
  | cons b t ih =>
    cases i with
    | zero => simp [List.getD]
    | succ j =>
      simp only [List.length_cons, Nat.succ_lt_succ_iff] at h
      simpa [List.getD] using ih j h

theorem keys_playing_lt (l : List SynthKeyState) (k i : Nat)
    (h : l.getD k .Off = .Playing i) : k < l.length := by
  by_contra hc
  rw [listGetD_of_le l .Off (Nat.le_of_not_lt hc)] at h
  cases h

theorem find_steal_lt {R : Type} [LinearOrderedField R]
    (voices : List (SynthVoice R)) :
    ∀ (fuel vi : Nat), vi < SynthInner.MAX_VOICES →
      SynthInner.find_steal voices fuel vi < SynthInner.MAX_VOICES := by
  intro fuel
  induction fuel with
  | zero => intro vi h; exact h
  | succ n ih =>
    intro vi _h
    simp only [SynthInner.find_steal]
    have hm : (vi + 1) % SynthInner.MAX_VOICES < SynthInner.MAX_VOICES :=
      Nat.mod_lt _ (by decide)
    by_cases hact :
        (voices.getD ((vi + 1) % SynthInner.MAX_VOICES) SynthVoice.EMPTY).active
    · simp only [hact, not_true, if_false]
      exact ih _ hm
    · simp only [hact, not_false_iff, if_true]
      exact hm

theorem find_steal_all_active {R : Type} [LinearOrderedField R]
    (voices : List (SynthVoice R))
    (hall : ∀ j, j < SynthInner.MAX_VOICES →
      (voices.getD j SynthVoice.EMPTY).active = true) :
    ∀ (fuel vi : Nat), vi < SynthInner.MAX_VOICES →
      SynthInner.find_steal voices fuel vi =
        (vi + fuel) % SynthInner.MAX_VOICES := by
  intro fuel
  induction fuel with
  | zero =>
    intro vi h
    simp only [SynthInner.find_steal, Nat.add_zero]
    exact (Nat.mod_eq_of_lt h).symm
  | succ n ih =>
    intro vi _h
    have hm : (vi + 1) % SynthInner.MAX_VOICES < SynthInner.MAX_VOICES :=
      Nat.mod_lt _ (by decide)
    have hact := hall _ hm
    simp only [SynthInner.find_steal, hact, not_true, if_false]
    rw [ih _ hm, Nat.mod_add_mod]
    congr 1
    omega

theorem find_steal_first_inactive {R : Type} [LinearOrderedField R]
    (voices : List (SynthVoice R)) :
    ∀ (fuel vi off : Nat), 1 ≤ off → off ≤ fuel →
      vi < SynthInner.MAX_VOICES →
      (∀ j, 1 ≤ j → j < off →
        (voices.getD ((vi + j) % SynthInner.MAX_VOICES) SynthVoice.EMPTY).active
          = true) →
      (voices.getD ((vi + off) % SynthInner.MAX_VOICES) SynthVoice.EMPTY).active
        = false →
      SynthInner.find_steal voices fuel vi =
        (vi + off) % SynthInner.MAX_VOICES := by
  intro fuel
  induction fuel with
  | zero => intro vi off h1 h2 _ _ _; omega
  | succ n ih =>
    intro vi off h1 _h2 _hvi hprev hoff
    have hm : (vi + 1) % SynthInner.MAX_VOICES < SynthInner.MAX_VOICES :=
      Nat.mod_lt _ (by decide)
    have hstep : SynthInner.find_steal voices (n + 1) vi =
        if ¬(voices.getD ((vi + 1) % SynthInner.MAX_VOICES)
              SynthVoice.EMPTY).active = true
        then (vi + 1) % SynthInner.MAX_VOICES
        else SynthInner.find_steal voices n
          ((vi + 1) % SynthInner.MAX_VOICES) := rfl
    by_cases hone : off = 1
    · subst hone
      rw [hstep, if_pos (by rw [hoff]; decide)]
    · have h2' : 2 ≤ off := by omega
      have hact1 := hprev 1 (le_refl 1) (by omega)
      rw [hstep, if_neg (by rw [hact1]; decide)]
      have hrec := ih ((vi + 1) % SynthInner.MAX_VOICES) (off - 1) (by omega)
        (by omega) hm
        (fun j hj1 hj2 => by
          rw [Nat.mod_add_mod, show vi + 1 + j = vi + (j + 1) by omega]
          exact hprev (j + 1) (by omega) (by omega))
        (by
          rw [Nat.mod_add_mod, show vi + 1 + (off - 1) = vi + off by omega]
          exact hoff)
      rw [hrec, Nat.mod_add_mod, show vi + 1 + (off - 1) = vi + off by omega]

theorem get_new_voice_spec {R : Type} [LinearOrderedField R]
    (s : SynthInner R) (h : s.next_voice < SynthInner.MAX_VOICES) :
    s.get_new_voice.1 < SynthInner.MAX_VOICES ∧
    s.get_new_voice.2 =
      { s with next_voice := (s.get_new_voice.1 + 1) % SynthInner.MAX_VOICES } := by
  have hstep : s.get_new_voice =
      if ¬(s.voices.getD s.next_voice SynthVoice.EMPTY).active = true then
        (s.next_voice,
         { s with next_voice := (s.next_voice + 1) % SynthInner.MAX_VOICES })
      else
        (SynthInner.find_steal s.voices SynthInner.MAX_VOICES s.next_voice,
         { s with next_voice :=
            (SynthInner.find_steal s.voices SynthInner.MAX_VOICES s.next_voice
              + 1) % SynthInner.MAX_VOICES }) := rfl
  by_cases hact : (s.voices.getD s.next_voice SynthVoice.EMPTY).active = true
  · rw [hstep, if_neg (fun hc => hc hact)]
    exact ⟨find_steal_lt s.voices _ _ h, rfl⟩
  · rw [hstep, if_pos hact]
    exact ⟨h, rfl⟩

theorem play_key_alloc_spec {R : Type} [LinearOrderedField R] (pow2 : R → R)
    (s : SynthInner R) (k p : Nat)
    (hnp : ∀ i, s.keys.getD k .Off ≠ .Playing i)
    (hnv : s.next_voice < SynthInner.MAX_VOICES) :
    s.get_new_voice.1 < SynthInner.MAX_VOICES ∧
    s.play_key pow2 k p =
      { s with
          voices := s.voices.set s.get_new_voice.1
            ((s.voices.getD s.get_new_voice.1 SynthVoice.EMPTY).start pow2 k p),
          keys := (if (s.voices.getD s.get_new_voice.1 SynthVoice.EMPTY).active
                   then s.keys.set
                     (s.voices.getD s.get_new_voice.1 SynthVoice.EMPTY).key
                     .VoiceStolen
                   else s.keys).set k (.Playing s.get_new_voice.1),
          next_voice := (s.get_new_voice.1 + 1) % SynthInner.MAX_VOICES } := by
  obtain ⟨hlt, heq⟩ := get_new_voice_spec s hnv
  refine ⟨hlt, ?_⟩
  cases hck : s.keys.getD k .Off with
  | Playing vi => exact absurd hck (hnp vi)
  | Off =>
    simp only [SynthInner.play_key, hck]
    rw [heq]
    dsimp only
    by_cases hact :
        (s.voices.getD s.get_new_voice.1 SynthVoice.EMPTY).active = true
    · rw [if_pos hact, if_pos hact]
    · rw [if_neg hact, if_neg hact]
  | VoiceStolen =>
    simp only [SynthInner.play_key, hck]
    rw [heq]
    dsimp only
    by_cases hact :
        (s.voices.getD s.get_new_voice.1 SynthVoice.EMPTY).active = true
    · rw [if_pos hact, if_pos hact]
    · rw [if_neg hact, if_neg hact]

theorem WF_play_key {R : Type} [LinearOrderedField R] (pow2 : R → R)
    (s : SynthInner R) (k p : Nat) (hw : s.WF) :
    (SynthKeyboard.play_key pow2 s k p).WF := by
  unfold SynthKeyboard.play_key
  by_cases hk : SynthInner.NUM_KEYS ≤ k
  · rw [if_pos hk]; exact hw
  · rw [if_neg hk]
    by_cases hpl : ∃ i, s.keys.getD k .Off = .Playing i
    · obtain ⟨vi, hvi⟩ := hpl
      simp only [SynthInner.play_key, hvi]
      exact ⟨by simp [hw.1], hw.2.1, hw.2.2⟩
    · have hnp : ∀ i, s.keys.getD k .Off ≠ .Playing i :=
        fun i hc => hpl ⟨i, hc⟩
      obtain ⟨hlt, heq⟩ := play_key_alloc_spec pow2 s k p hnp hw.2.2
      rw [heq]
      refine ⟨by simp [hw.1], ?_, Nat.mod_lt _ (by decide)⟩
      by_cases hact :
          (s.voices.getD s.get_new_voice.1 SynthVoice.EMPTY).active = true
      · rw [if_pos hact]; simp [hw.2.1]
      · rw [if_neg hact]; simp [hw.2.1]

theorem WF_stop_key {R : Type} [LinearOrderedField R]
    (s : SynthInner R) (k : Nat) (hw : s.WF) :
    (SynthKeyboard.stop_key s k).WF := by
  unfold SynthKeyboard.stop_key
  by_cases hk : SynthInner.NUM_KEYS ≤ k
  · rw [if_pos hk]; exact hw
  · rw [if_neg hk]
    cases hck : s.keys.getD k .Off with
    | Playing vi =>
      simp only [SynthInner.stop_key, hck]
      exact ⟨by simp [hw.1], by simp [hw.2.1], hw.2.2⟩
    | Off =>
      simp only [SynthInner.stop_key, hck]
      exact ⟨hw.1, by simp [hw.2.1], hw.2.2⟩
    | VoiceStolen =>
      simp only [SynthInner.stop_key, hck]
      exact ⟨hw.1, by simp [hw.2.1], hw.2.2⟩

/-- C10: for every key of 88 (NUM_KEYS) or greater, the public play_key and
stop_key return immediately with the state unchanged (every component:
voices, keys, cursor, volume, connection flag); and for every key and
pressure whatsoever the public operations preserve well-formedness (the
88-entry key array and 8-entry voice array keep their lengths and the
cursor stays in range), so the fixed arrays are never indexed out of their
bounds by a public call. -/
theorem public_key_guard {R : Type} [LinearOrderedField R] (pow2 : R → R)
    (s : SynthInner R) (key pressure : Nat) (h : 88 ≤ key) :
    SynthKeyboard.play_key pow2 s key pressure = s ∧
    SynthKeyboard.stop_key s key = s ∧
    (s.WF → ∀ k p, (SynthKeyboard.play_key pow2 s k p).WF ∧
      (SynthKeyboard.stop_key s k).WF) := by
  have h' : SynthInner.NUM_KEYS ≤ key := h
  refine ⟨?_, ?_, fun hw k p => ⟨WF_play_key pow2 s k p hw, WF_stop_key s k hw⟩⟩
  · unfold SynthKeyboard.play_key
    rw [if_pos h']
  · unfold SynthKeyboard.stop_key
    rw [if_pos h']

theorem public_key_guard_witness :
    88 ≤ 200 ∧
    SynthKeyboard.play_key (fun _ => (0 : ℚ)) SynthInner.new 200 64 =
      SynthInner.new :=
  ⟨by decide,
   (public_key_guard (fun _ => (0 : ℚ)) SynthInner.new 200 64 (by decide)).1⟩

/-- C9: for every key k whose state is Playing i, play_key restarts voice i
in place with the new pressure: the resulting state is exactly the old state
with voice i restarted, so the key states, the voice cursor, the master
volume, the connection flag and every other voice are left unchanged (no
allocation, no stealing). -/
theorem play_key_restarts_in_place {R : Type} [LinearOrderedField R]
    (pow2 : R → R) (s : SynthInner R) (k pressure i : Nat)
    (hw : s.WF) (hk : s.keys.getD k .Off = .Playing i) :
    SynthKeyboard.play_key pow2 s k pressure =
      { s with voices := s.voices.set i
                  ((s.voices.getD i SynthVoice.EMPTY).start pow2 k pressure) } ∧
    (SynthKeyboard.play_key pow2 s k pressure).keys = s.keys ∧
    (SynthKeyboard.play_key pow2 s k pressure).next_voice = s.next_voice ∧
    (SynthKeyboard.play_key pow2 s k pressure).volume = s.volume ∧
    (SynthKeyboard.play_key pow2 s k pressure).midi_connected =
      s.midi_connected ∧
    ∀ j, j ≠ i →
      (SynthKeyboard.play_key pow2 s k pressure).voices.getD j
          SynthVoice.EMPTY =
        s.voices.getD j SynthVoice.EMPTY := by
  have hklt : k < SynthInner.NUM_KEYS := by
    have hlen := keys_playing_lt s.keys k i hk
    rwa [hw.2.1] at hlen
  have hpub : SynthKeyboard.play_key pow2 s k pressure =
      s.play_key pow2 k pressure := by
    unfold SynthKeyboard.play_key
    rw [if_neg (not_le.mpr hklt)]
  have hinner : s.play_key pow2 k pressure =
      { s with voices := s.voices.set i
                  ((s.voices.getD i SynthVoice.EMPTY).start pow2 k pressure) } := by
    simp only [SynthInner.play_key, hk]
  rw [hpub, hinner]
  refine ⟨rfl, rfl, rfl, rfl, rfl, fun j hj => ?_⟩
  exact listGetD_set_ne s.voices i j _ SynthVoice.EMPTY fun hc => hj hc.symm

theorem play_key_restarts_in_place_witness :
    (SynthKeyboard.play_key (fun _ => (0 : ℚ)) SynthInner.new 5 100).WF ∧
    (SynthKeyboard.play_key (fun _ => (0 : ℚ))
        SynthInner.new 5 100).keys.getD 5 .Off = .Playing 0 ∧
    (SynthKeyboard.play_key (fun _ => (0 : ℚ))
        (SynthKeyboard.play_key (fun _ => (0 : ℚ)) SynthInner.new 5 100)
        5 64).keys =
      (SynthKeyboard.play_key (fun _ => (0 : ℚ)) SynthInner.new 5 100).keys :=
  ⟨by decide, by decide,
   (play_key_restarts_in_place (fun _ => (0 : ℚ)) _ 5 64 0
     (by decide) (by decide)).2.1⟩

/-- C5: for every key k whose state is Playing i (with voice i active, as
the pool invariant guarantees), stop_key sets keys k to Off in the same
operation and puts voice i into its release: the voice's stopping flag
becomes true while active stays true; and for every buffer subsequently
given to that voice's gen_samples, the voice comes back inactive at the end
of the buffer, so key state and voice activity are decoupled after the
stop. -/
theorem stop_key_decouples {R : Type} [LinearOrderedField R] [FloorRing R]
    (sinR : R → R) (tau : R) (s : SynthInner R) (k i : Nat) (hw : s.WF)
    (hk : s.keys.getD k .Off = .Playing i) (hi : i < SynthInner.MAX_VOICES)
    (ha : (s.voices.getD i SynthVoice.EMPTY).active = true) :
    (SynthKeyboard.stop_key s k).keys.getD k .Off = .Off ∧
    ((SynthKeyboard.stop_key s k).voices.getD i SynthVoice.EMPTY).stopping
      = true ∧
    ((SynthKeyboard.stop_key s k).voices.getD i SynthVoice.EMPTY).active
      = true ∧
    ∀ data : List ℤ,
      (((SynthKeyboard.stop_key s k).voices.getD i
          SynthVoice.EMPTY).gen_samples sinR tau data).1.active = false := by
  have hklt : k < SynthInner.NUM_KEYS := by
    have hlen := keys_playing_lt s.keys k i hk
    rwa [hw.2.1] at hlen
  have hpub : SynthKeyboard.stop_key s k = s.stop_key k := by
    unfold SynthKeyboard.stop_key
    rw [if_neg (not_le.mpr hklt)]
  have hinner : s.stop_key k =
      { s with voices := s.voices.set i
                  (s.voices.getD i SynthVoice.EMPTY).stop,
               keys := s.keys.set k .Off } := by
    simp only [SynthInner.stop_key, hk]
  have hvoice : (s.stop_key k).voices.getD i SynthVoice.EMPTY =
      (s.voices.getD i SynthVoice.EMPTY).stop := by
    rw [hinner]
    exact listGetD_set_self s.voices i _ SynthVoice.EMPTY (by rw [hw.1]; exact hi)
  rw [hpub]
  refine ⟨?_, ?_, ?_, ?_⟩
  · rw [hinner]
    exact listGetD_set_self s.keys k .Off .Off (by rw [hw.2.1]; exact hklt)
  · rw [hvoice]; rfl
  · rw [hvoice]
    simpa [SynthVoice.stop] using ha
  · intro data
    rw [hvoice]
    rw [(gen_samples_state sinR tau
      ((s.voices.getD i SynthVoice.EMPTY).stop) data).1]
    simp [SynthVoice.stop]

theorem stop_key_decouples_witness :
    (SynthKeyboard.play_key (fun _ => (0 : ℚ)) SynthInner.new 5 100).WF ∧
    (SynthKeyboard.play_key (fun _ => (0 : ℚ))
        SynthInner.new 5 100).keys.getD 5 .Off = .Playing 0 ∧
    (0 : Nat) < SynthInner.MAX_VOICES ∧
    (SynthKeyboard.stop_key
        (SynthKeyboard.play_key (fun _ => (0 : ℚ)) SynthInner.new 5 100)
        5).keys.getD 5 .Off = .Off :=
  ⟨by decide, by decide, by decide,
   (stop_key_decouples (fun _ => (0 : ℚ)) 0 _ 5 0
     (by decide) (by decide) (by decide) (by decide)).1⟩

theorem get_new_voice_first_branch {R : Type} [LinearOrderedField R]
    (s : SynthInner R)
    (hin : (s.voices.getD s.next_voice SynthVoice.EMPTY).active = false) :
    s.get_new_voice.1 = s.next_voice := by
  have hstep : s.get_new_voice =
      if ¬(s.voices.getD s.next_voice SynthVoice.EMPTY).active = true then
        (s.next_voice,
         { s with next_voice := (s.next_voice + 1) % SynthInner.MAX_VOICES })
      else
        (SynthInner.find_steal s.voices SynthInner.MAX_VOICES s.next_voice,
         { s with next_voice :=
            (SynthInner.find_steal s.voices SynthInner.MAX_VOICES s.next_voice
              + 1) % SynthInner.MAX_VOICES }) := rfl
  rw [hstep, if_pos (by rw [hin]; decide)]

theorem get_new_voice_else_branch {R : Type} [LinearOrderedField R]
    (s : SynthInner R)
    (hact : (s.voices.getD s.next_voice SynthVoice.EMPTY).active = true) :
    s.get_new_voice.1 =
      SynthInner.find_steal s.voices SynthInner.MAX_VOICES s.next_voice := by
  have hstep : s.get_new_voice =
      if ¬(s.voices.getD s.next_voice SynthVoice.EMPTY).active = true then
        (s.next_voice,
         { s with next_voice := (s.next_voice + 1) % SynthInner.MAX_VOICES })
      else
        (SynthInner.find_steal s.voices SynthInner.MAX_VOICES s.next_voice,
         { s with next_voice :=
            (SynthInner.find_steal s.voices SynthInner.MAX_VOICES s.next_voice
              + 1) % SynthInner.MAX_VOICES }) := rfl
  rw [hstep, if_neg (fun hc => hc hact)]

/-- C3: allocation of a new voice when key k is not Playing.  First part:
when all MAX_VOICES voices are active, play_key steals exactly the voice the
rotating cursor points to: the stolen voice's previous key is marked
VoiceStolen (and stays VoiceStolen, not Off, whenever it differs from k),
keys k becomes Playing of the cursor index, and the cursor advances one past
the stolen voice.  Second part: when the first inactive voice scanning
forward from the cursor (cursor itself included) sits off slots ahead, that
voice is chosen instead, no key is marked VoiceStolen (the keys only gain
the Playing entry for k), and the cursor advances one past the chosen
voice. -/
theorem play_key_steals_cursor_voice {R : Type} [LinearOrderedField R]
    (pow2 : R → R) (s : SynthInner R) (k p : Nat) (hw : s.WF)
    (hk : k < SynthInner.NUM_KEYS)
    (hnp : ∀ i, s.keys.getD k .Off ≠ .Playing i) :
    ((∀ j, j < SynthInner.MAX_VOICES →
        (s.voices.getD j SynthVoice.EMPTY).active = true) →
      SynthKeyboard.play_key pow2 s k p =
        { s with
            voices := s.voices.set s.next_voice
              ((s.voices.getD s.next_voice SynthVoice.EMPTY).start pow2 k p),
            keys := (s.keys.set
              (s.voices.getD s.next_voice SynthVoice.EMPTY).key
              .VoiceStolen).set k (.Playing s.next_voice),
            next_voice := (s.next_voice + 1) % SynthInner.MAX_VOICES } ∧
      ((s.voices.getD s.next_voice SynthVoice.EMPTY).key ≠ k →
        (s.voices.getD s.next_voice SynthVoice.EMPTY).key <
          SynthInner.NUM_KEYS →
        (SynthKeyboard.play_key pow2 s k p).keys.getD
          (s.voices.getD s.next_voice SynthVoice.EMPTY).key .Off =
            .VoiceStolen)) ∧
    (∀ off, off < SynthInner.MAX_VOICES →
      (s.voices.getD ((s.next_voice + off) % SynthInner.MAX_VOICES)
        SynthVoice.EMPTY).active = false →
      (∀ j, j < off →
        (s.voices.getD ((s.next_voice + j) % SynthInner.MAX_VOICES)
          SynthVoice.EMPTY).active = true) →
      SynthKeyboard.play_key pow2 s k p =
        { s with
            voices := s.voices.set
              ((s.next_voice + off) % SynthInner.MAX_VOICES)
              ((s.voices.getD ((s.next_voice + off) % SynthInner.MAX_VOICES)
                SynthVoice.EMPTY).start pow2 k p),
            keys := s.keys.set k
              (.Playing ((s.next_voice + off) % SynthInner.MAX_VOICES)),
            next_voice := ((s.next_voice + off) % SynthInner.MAX_VOICES + 1)
              % SynthInner.MAX_VOICES }) := by
  have hnv : s.next_voice < SynthInner.MAX_VOICES := hw.2.2
  have hpub : SynthKeyboard.play_key pow2 s k p = s.play_key pow2 k p := by
    unfold SynthKeyboard.play_key
    rw [if_neg (not_le.mpr hk)]
  obtain ⟨_hlt, heq⟩ := play_key_alloc_spec pow2 s k p hnp hnv
  constructor
  · intro hall
    have hchosen : s.get_new_voice.1 = s.next_voice := by
      rw [get_new_voice_else_branch s (hall _ hnv),
        find_steal_all_active s.voices hall SynthInner.MAX_VOICES
          s.next_voice hnv,
        Nat.add_mod_right, Nat.mod_eq_of_lt hnv]
    rw [hchosen] at heq
    have hmain : SynthKeyboard.play_key pow2 s k p =
        { s with
            voices := s.voices.set s.next_voice
              ((s.voices.getD s.next_voice SynthVoice.EMPTY).start pow2 k p),
            keys := (s.keys.set
              (s.voices.getD s.next_voice SynthVoice.EMPTY).key
              .VoiceStolen).set k (.Playing s.next_voice),
            next_voice := (s.next_voice + 1) % SynthInner.MAX_VOICES } := by
      rw [hpub, heq, if_pos (hall _ hnv)]
    refine ⟨hmain, fun hne hlt => ?_⟩
    rw [hmain]
    have h1 : ((s.keys.set (s.voices.getD s.next_voice SynthVoice.EMPTY).key
        .VoiceStolen).set k (.Playing s.next_voice)).getD
        (s.voices.getD s.next_voice SynthVoice.EMPTY).key .Off =
        (s.keys.set (s.voices.getD s.next_voice SynthVoice.EMPTY).key
          .VoiceStolen).getD
          (s.voices.getD s.next_voice SynthVoice.EMPTY).key .Off :=
      listGetD_set_ne _ k _ _ SynthKeyState.Off fun hc => hne hc.symm
    have h2 : (s.keys.set (s.voices.getD s.next_voice SynthVoice.EMPTY).key
        .VoiceStolen).getD
        (s.voices.getD s.next_voice SynthVoice.EMPTY).key .Off =
        .VoiceStolen :=
      listGetD_set_self s.keys _ _ SynthKeyState.Off (by rw [hw.2.1]; exact hlt)
    exact h1.trans h2
  · intro off hoff hinact hprev
    have hchm : (s.next_voice + off) % SynthInner.MAX_VOICES <
        SynthInner.MAX_VOICES := Nat.mod_lt _ (by decide)
    have hchosen : s.get_new_voice.1 =
        (s.next_voice + off) % SynthInner.MAX_VOICES := by
      rcases Nat.eq_zero_or_pos off with hz | hpos
      · subst hz
        have hin0 : (s.voices.getD s.next_voice SynthVoice.EMPTY).active
            = false := by
          rwa [Nat.add_zero, Nat.mod_eq_of_lt hnv] at hinact
        rw [get_new_voice_first_branch s hin0, Nat.add_zero,
          Nat.mod_eq_of_lt hnv]
      · have hact0 : (s.voices.getD s.next_voice SynthVoice.EMPTY).active
            = true := by
          have := hprev 0 hpos
          rwa [Nat.add_zero, Nat.mod_eq_of_lt hnv] at this
        rw [get_new_voice_else_branch s hact0]
        exact find_steal_first_inactive s.voices SynthInner.MAX_VOICES
          s.next_voice off hpos (Nat.le_of_lt hoff) hnv
          (fun j hj1 hj2 => hprev j hj2) hinact
    rw [hchosen] at heq
    rw [hpub, heq, if_neg (by rw [hinact]; decide)]

theorem play_key_steals_cursor_voice_witness :
    (SynthInner.new : SynthInner ℚ).WF ∧
    (3 : Nat) < SynthInner.NUM_KEYS ∧
    (∀ i, (SynthInner.new : SynthInner ℚ).keys.getD 3 .Off ≠ .Playing i) ∧
    (∀ off, off < SynthInner.MAX_VOICES →
      ((SynthInner.new : SynthInner ℚ).voices.getD
        (((SynthInner.new : SynthInner ℚ).next_voice + off)
          % SynthInner.MAX_VOICES) SynthVoice.EMPTY).active = false →
      (∀ j, j < off →
        ((SynthInner.new : SynthInner ℚ).voices.getD
          (((SynthInner.new : SynthInner ℚ).next_voice + j)
            % SynthInner.MAX_VOICES) SynthVoice.EMPTY).active = true) →
      SynthKeyboard.play_key (fun _ => (0 : ℚ)) SynthInner.new 3 77 =
        { (SynthInner.new : SynthInner ℚ) with
            voices := (SynthInner.new : SynthInner ℚ).voices.set
              (((SynthInner.new : SynthInner ℚ).next_voice + off)
                % SynthInner.MAX_VOICES)
              (((SynthInner.new : SynthInner ℚ).voices.getD
                (((SynthInner.new : SynthInner ℚ).next_voice + off)
                  % SynthInner.MAX_VOICES) SynthVoice.EMPTY).start
                (fun _ => (0 : ℚ)) 3 77),
            keys := (SynthInner.new : SynthInner ℚ).keys.set 3
              (.Playing (((SynthInner.new : SynthInner ℚ).next_voice + off)
                % SynthInner.MAX_VOICES)),
            next_voice := (((SynthInner.new : SynthInner ℚ).next_voice + off)
              % SynthInner.MAX_VOICES + 1) % SynthInner.MAX_VOICES }) :=
  by
  refine ⟨by decide, by decide, ?_, ?_⟩
  · intro i hc
    have hoff3 : (SynthInner.new : SynthInner ℚ).keys.getD 3
        SynthKeyState.Off = SynthKeyState.Off := by decide
    rw [hoff3] at hc
    cases hc
  · exact (play_key_steals_cursor_voice (fun _ => (0 : ℚ)) SynthInner.new 3 77
      (by decide) (by decide)
      (fun i hc => by
        have hoff3 : (SynthInner.new : SynthInner ℚ).keys.getD 3
            SynthKeyState.Off = SynthKeyState.Off := by decide
        rw [hoff3] at hc
        cases hc)).2

/-! ### The Playing-implies-active invariant (claim C4) -/

/-- State effect of one gen_samples buffer on a voice, as established in
gen_samples_state. -/
def voice_after_buffer {R : Type} [LinearOrderedField R]
    (v : SynthVoice R) (len : Nat) : SynthVoice R :=
  { v with tick := v.tick + (len : R),
           active := if v.stopping then false else v.active,
           volume := if v.stopping then v.volume
                     else v.volume * v.instrument.decay }

theorem run_voices_spec {R : Type} [LinearOrderedField R] [FloorRing R]
    (sinR : R → R) (tau : R) :
    ∀ (vs : List (SynthVoice R)) (buf : List ℤ),
      (run_voices sinR tau vs buf).1 =
        vs.map (fun v => if v.active = true
          then voice_after_buffer v buf.length else v) ∧
      (run_voices sinR tau vs buf).2.length = buf.length := by
  intro vs
  induction vs with
  | nil => intro buf; simp [run_voices]
  | cons v vs ih =>
    intro buf
    obtain ⟨hst, hlen⟩ := gen_samples_state sinR tau v buf
    by_cases hact : v.active = true
    · obtain ⟨ih1, ih2⟩ := ih (v.gen_samples sinR tau buf).2
      have hrv : run_voices sinR tau (v :: vs) buf =
          ((v.gen_samples sinR tau buf).1 ::
            (run_voices sinR tau vs (v.gen_samples sinR tau buf).2).1,
           (run_voices sinR tau vs (v.gen_samples sinR tau buf).2).2) := by
        simp [run_voices, hact]
      rw [hrv]
      constructor
      · simp only [List.map_cons]
        rw [ih1, hlen, hst]
        simp [voice_after_buffer, hact]
      · rw [ih2, hlen]
    · obtain ⟨ih1, ih2⟩ := ih buf
      have hrv : run_voices sinR tau (v :: vs) buf =
          (v :: (run_voices sinR tau vs buf).1,
           (run_voices sinR tau vs buf).2) := by
        simp [run_voices, hact]
      rw [hrv]
      constructor
      · simp only [List.map_cons]
        rw [ih1]
        simp [hact]
      · exact ih2

/-- Key invariant of the claim: every key in Playing state points at an
active voice whose key field points back at it. -/
def SynthInner.KeyInv {R : Type} [LinearOrderedField R] (s : SynthInner R) : Prop :=
  ∀ k i, s.keys.getD k SynthKeyState.Off = SynthKeyState.Playing i →
    (s.voices.getD i SynthVoice.EMPTY).active = true ∧
    (s.voices.getD i SynthVoice.EMPTY).key = k

/-- Strengthened inductive invariant: well-formedness, every voice's key
field in range, and every Playing entry pointing at an active, not-stopping
voice with the matching key, at an index inside the pool. -/
def SynthInner.InvS {R : Type} [LinearOrderedField R] (s : SynthInner R) : Prop :=
  s.WF ∧
  (∀ i, i < SynthInner.MAX_VOICES →
    (s.voices.getD i SynthVoice.EMPTY).key < SynthInner.NUM_KEYS) ∧
  ∀ k i, s.keys.getD k SynthKeyState.Off = SynthKeyState.Playing i →
    i < SynthInner.MAX_VOICES ∧
    (s.voices.getD i SynthVoice.EMPTY).active = true ∧
    (s.voices.getD i SynthVoice.EMPTY).key = k ∧
    (s.voices.getD i SynthVoice.EMPTY).stopping = false

/-- Reachability from the freshly constructed engine state by the public
play and stop operations, instrument switches and audio-callback buffer
renderings, in any order. -/
inductive Reachable {R : Type} [LinearOrderedField R] [FloorRing R]
    (pow2 sinR : R → R) (tau : R) : SynthInner R → Prop
  | init : Reachable pow2 sinR tau SynthInner.new
  | play (s : SynthInner R) (k p : Nat) : Reachable pow2 sinR tau s →
      Reachable pow2 sinR tau (SynthKeyboard.play_key pow2 s k p)
  | stop (s : SynthInner R) (k : Nat) : Reachable pow2 sinR tau s →
      Reachable pow2 sinR tau (SynthKeyboard.stop_key s k)
  | instr (s : SynthInner R) (ins : SynthInstrument R) :
      Reachable pow2 sinR tau s →
      Reachable pow2 sinR tau (s.set_instrument ins)
  | audio (s : SynthInner R) (len : Nat) : Reachable pow2 sinR tau s →
      Reachable pow2 sinR tau (s.audio_callback sinR tau len).1

theorem invS_new {R : Type} [LinearOrderedField R] :
    (SynthInner.new : SynthInner R).InvS := by
  refine ⟨⟨by simp [SynthInner.new], by simp [SynthInner.new],
    by show 0 < SynthInner.MAX_VOICES; decide⟩, ?_, ?_⟩
  · intro i hi
    show ((List.replicate SynthInner.MAX_VOICES
      (SynthVoice.EMPTY : SynthVoice R)).getD i SynthVoice.EMPTY).key <
      SynthInner.NUM_KEYS
    rw [listGetD_replicate SynthInner.MAX_VOICES
      (SynthVoice.EMPTY : SynthVoice R) SynthVoice.EMPTY i hi]
    show 0 < SynthInner.NUM_KEYS
    decide
  · intro k i h
    exfalso
    replace h : (List.replicate SynthInner.NUM_KEYS
        SynthKeyState.Off).getD k SynthKeyState.Off =
        SynthKeyState.Playing i := h
    rcases Nat.lt_or_ge k SynthInner.NUM_KEYS with hlt | hge
    · rw [listGetD_replicate SynthInner.NUM_KEYS SynthKeyState.Off
        SynthKeyState.Off k hlt] at h
      cases h
    · rw [listGetD_of_le _ _ (by simpa using hge)] at h
      cases h

theorem listGetD_map_of_lt (f : α → β) (l : List α) (i : Nat) (d : β)
    (d' : α) (h : i < l.length) : (l.map f).getD i d = f (l.getD i d') := by
  rw [listGetD_default_irrel (l.map f) i d (f d') (by simpa using h)]
  exact listGetD_map f l i d' h

theorem start_fields {R : Type} [LinearOrderedField R] (pow2 : R → R)
    (v : SynthVoice R) (k p : Nat) :
    (v.start pow2 k p).active = true ∧ (v.start pow2 k p).stopping = false ∧
    (v.start pow2 k p).key = k :=
  ⟨rfl, rfl, rfl⟩

theorem stop_fields {R : Type} (v : SynthVoice R) :
    v.stop.active = v.active ∧ v.stop.stopping = true ∧ v.stop.key = v.key :=
  ⟨rfl, rfl, rfl⟩

theorem set_instrument_fields {R : Type} [LinearOrderedField R]
    (v : SynthVoice R) (ins : SynthInstrument R) :
    (v.set_instrument ins).active = v.active ∧
    (v.set_instrument ins).stopping = v.stopping ∧
    (v.set_instrument ins).key = v.key :=
  ⟨rfl, rfl, rfl⟩

theorem voice_after_buffer_fields {R : Type} [LinearOrderedField R]
    (v : SynthVoice R) (n : Nat) :
    (voice_after_buffer v n).active =
      (if v.stopping = true then false else v.active) ∧
    (voice_after_buffer v n).stopping = v.stopping ∧
    (voice_after_buffer v n).key = v.key :=
  ⟨rfl, rfl, rfl⟩

theorem invS_instr {R : Type} [LinearOrderedField R]
    (s : SynthInner R) (ins : SynthInstrument R) (h : s.InvS) :
    (s.set_instrument ins).InvS := by
  obtain ⟨hw, hkb, hinv⟩ := h
  have hmap : ∀ i, i < SynthInner.MAX_VOICES →
      (s.set_instrument ins).voices.getD i SynthVoice.EMPTY =
        (s.voices.getD i SynthVoice.EMPTY).set_instrument ins := by
    intro i hi
    exact listGetD_map_of_lt _ s.voices i SynthVoice.EMPTY SynthVoice.EMPTY
      (by rw [hw.1]; exact hi)
  refine ⟨⟨by simp [SynthInner.set_instrument, hw.1],
    by simp [SynthInner.set_instrument, hw.2.1], hw.2.2⟩, ?_, ?_⟩
  · intro i hi
    rw [hmap i hi, (set_instrument_fields _ ins).2.2]
    exact hkb i hi
  · intro k i h'
    replace h' : s.keys.getD k SynthKeyState.Off = SynthKeyState.Playing i := h'
    obtain ⟨hiM, hact, hkey, hstop⟩ := hinv k i h'
    refine ⟨hiM, ?_, ?_, ?_⟩
    · rw [hmap i hiM, (set_instrument_fields _ ins).1]; exact hact
    · rw [hmap i hiM, (set_instrument_fields _ ins).2.2]; exact hkey
    · rw [hmap i hiM, (set_instrument_fields _ ins).2.1]; exact hstop

theorem invS_audio {R : Type} [LinearOrderedField R] [FloorRing R]
    (sinR : R → R) (tau : R) (s : SynthInner R) (len : Nat) (h : s.InvS) :
    (s.audio_callback sinR tau len).1.InvS := by
  obtain ⟨hw, hkb, hinv⟩ := h
  obtain ⟨hrv, _⟩ := run_voices_spec sinR tau s.voices (List.replicate len 0)
  have hvoices : (s.audio_callback sinR tau len).1.voices =
      s.voices.map (fun v => if v.active = true
        then voice_after_buffer v (List.replicate (n := len) (0 : ℤ)).length
        else v) := hrv
  have hkeys : (s.audio_callback sinR tau len).1.keys = s.keys := rfl
  have hnv : (s.audio_callback sinR tau len).1.next_voice = s.next_voice := rfl
  have hmap : ∀ i, i < SynthInner.MAX_VOICES →
      (s.audio_callback sinR tau len).1.voices.getD i SynthVoice.EMPTY =
        (fun v => if v.active = true
          then voice_after_buffer v (List.replicate (n := len) (0 : ℤ)).length
          else v) (s.voices.getD i SynthVoice.EMPTY) := by
    intro i hi
    rw [hvoices]
    exact listGetD_map_of_lt _ s.voices i SynthVoice.EMPTY SynthVoice.EMPTY
      (by rw [hw.1]; exact hi)
  refine ⟨⟨by rw [hvoices]; simp [hw.1], by rw [hkeys]; exact hw.2.1,
    by rw [hnv]; exact hw.2.2⟩, ?_, ?_⟩
  · intro i hi
    rw [hmap i hi]
    by_cases hact : (s.voices.getD i SynthVoice.EMPTY).active = true
    · simp only [hact, if_true]
      rw [(voice_after_buffer_fields _ _).2.2]
      exact hkb i hi
    · simp only [hact, if_false]
      exact hkb i hi
  · intro k i h'
    replace h' : s.keys.getD k SynthKeyState.Off = SynthKeyState.Playing i := h'
    obtain ⟨hiM, hact, hkey, hstop⟩ := hinv k i h'
    rw [hmap i hiM]
    simp only [hact, if_true]
    refine ⟨hiM, ?_, ?_, ?_⟩
    · rw [(voice_after_buffer_fields _ _).1, hstop]
      simpa using hact
    · rw [(voice_after_buffer_fields _ _).2.2]; exact hkey
    · rw [(voice_after_buffer_fields _ _).2.1]; exact hstop

theorem invS_stop {R : Type} [LinearOrderedField R]
    (s : SynthInner R) (k : Nat) (h : s.InvS) :
    (SynthKeyboard.stop_key s k).InvS := by
  obtain ⟨hw, hkb, hinv⟩ := h
  by_cases hk88 : SynthInner.NUM_KEYS ≤ k
  · have hid : SynthKeyboard.stop_key s k = s := by
      unfold SynthKeyboard.stop_key
      rw [if_pos hk88]
    rw [hid]
    exact ⟨hw, hkb, hinv⟩
  · have hklt : k < SynthInner.NUM_KEYS := Nat.lt_of_not_le hk88
    have hpub : SynthKeyboard.stop_key s k = s.stop_key k := by
      unfold SynthKeyboard.stop_key
      rw [if_neg hk88]
    rw [hpub]
    cases hck : s.keys.getD k SynthKeyState.Off with
    | Playing vi =>
      obtain ⟨hviM, hact, hkey, hstop⟩ := hinv k vi hck
      have hinner : s.stop_key k =
          { s with voices := s.voices.set vi
                      (s.voices.getD vi SynthVoice.EMPTY).stop,
                   keys := s.keys.set k SynthKeyState.Off } := by
        simp only [SynthInner.stop_key, hck]
      rw [hinner]
      refine ⟨⟨by simp [hw.1], by simp [hw.2.1], hw.2.2⟩, ?_, ?_⟩
      · intro i hi
        show ((s.voices.set vi (s.voices.getD vi SynthVoice.EMPTY).stop).getD
          i SynthVoice.EMPTY).key < SynthInner.NUM_KEYS
        by_cases hieq : vi = i
        · subst hieq
          rw [listGetD_set_self _ _ _ _ (by rw [hw.1]; exact hviM),
            (stop_fields _).2.2]
          exact hkb vi hviM
        · rw [listGetD_set_ne _ _ _ _ _ hieq]
          exact hkb i hi
      · intro k' i' h'
        replace h' : (s.keys.set k SynthKeyState.Off).getD k'
            SynthKeyState.Off = SynthKeyState.Playing i' := h'
        by_cases hk'k : k = k'
        · subst hk'k
          rw [listGetD_set_self _ _ _ _ (by rw [hw.2.1]; exact hklt)] at h'
          cases h'
        · rw [listGetD_set_ne _ _ _ _ _ hk'k] at h'
          obtain ⟨hiM', hact', hkey', hstop'⟩ := hinv k' i' h'
          have hne : vi ≠ i' := by
            intro hc
            subst hc
            rw [hkey] at hkey'
            exact hk'k hkey'
          have hfr : (s.voices.set vi
              (s.voices.getD vi SynthVoice.EMPTY).stop).getD i'
              SynthVoice.EMPTY = s.voices.getD i' SynthVoice.EMPTY :=
            listGetD_set_ne _ _ _ _ _ hne
          exact ⟨hiM', by rw [show ({ s with
              voices := s.voices.set vi
                (s.voices.getD vi SynthVoice.EMPTY).stop,
              keys := s.keys.set k SynthKeyState.Off } : SynthInner R).voices
              = s.voices.set vi (s.voices.getD vi SynthVoice.EMPTY).stop
              from rfl, hfr]; exact hact',
            by rw [show ({ s with
              voices := s.voices.set vi
                (s.voices.getD vi SynthVoice.EMPTY).stop,
              keys := s.keys.set k SynthKeyState.Off } : SynthInner R).voices
              = s.voices.set vi (s.voices.getD vi SynthVoice.EMPTY).stop
              from rfl, hfr]; exact hkey',
            by rw [show ({ s with
              voices := s.voices.set vi
                (s.voices.getD vi SynthVoice.EMPTY).stop,
              keys := s.keys.set k SynthKeyState.Off } : SynthInner R).voices
              = s.voices.set vi (s.voices.getD vi SynthVoice.EMPTY).stop
              from rfl, hfr]; exact hstop'⟩
    | Off =>
      have hinner : s.stop_key k =
          { s with keys := s.keys.set k SynthKeyState.Off } := by
        simp only [SynthInner.stop_key, hck]
      rw [hinner]
      refine ⟨⟨hw.1, by simp [hw.2.1], hw.2.2⟩, hkb, ?_⟩
      intro k' i' h'
      replace h' : (s.keys.set k SynthKeyState.Off).getD k'
          SynthKeyState.Off = SynthKeyState.Playing i' := h'
      by_cases hk'k : k = k'
      · subst hk'k
        rw [listGetD_set_self _ _ _ _ (by rw [hw.2.1]; exact hklt)] at h'
        cases h'
      · rw [listGetD_set_ne _ _ _ _ _ hk'k] at h'
        exact hinv k' i' h'
    | VoiceStolen =>
      have hinner : s.stop_key k =
          { s with keys := s.keys.set k SynthKeyState.Off } := by
        simp only [SynthInner.stop_key, hck]
      rw [hinner]
      refine ⟨⟨hw.1, by simp [hw.2.1], hw.2.2⟩, hkb, ?_⟩
      intro k' i' h'
      replace h' : (s.keys.set k SynthKeyState.Off).getD k'
          SynthKeyState.Off = SynthKeyState.Playing i' := h'
      by_cases hk'k : k = k'
      · subst hk'k
        rw [listGetD_set_self _ _ _ _ (by rw [hw.2.1]; exact hklt)] at h'
        cases h'
      · rw [listGetD_set_ne _ _ _ _ _ hk'k] at h'
        exact hinv k' i' h'

theorem invS_play {R : Type} [LinearOrderedField R] (pow2 : R → R)
    (s : SynthInner R) (k p : Nat) (h : s.InvS) :
    (SynthKeyboard.play_key pow2 s k p).InvS := by
  obtain ⟨hw, hkb, hinv⟩ := h
  by_cases hk88 : SynthInner.NUM_KEYS ≤ k
  · have hid : SynthKeyboard.play_key pow2 s k p = s := by
      unfold SynthKeyboard.play_key
      rw [if_pos hk88]
    rw [hid]
    exact ⟨hw, hkb, hinv⟩
  have hklt : k < SynthInner.NUM_KEYS := Nat.lt_of_not_le hk88
  have hpub : SynthKeyboard.play_key pow2 s k p = s.play_key pow2 k p := by
    unfold SynthKeyboard.play_key
    rw [if_neg hk88]
  rw [hpub]
  by_cases hpl : ∃ i, s.keys.getD k SynthKeyState.Off = SynthKeyState.Playing i
  · -- the key is already sounding: restart its voice in place
    obtain ⟨vi, hvi⟩ := hpl
    obtain ⟨hviM, _hact, hkey, _hstop⟩ := hinv k vi hvi
    have hinner : s.play_key pow2 k p =
        { s with voices := s.voices.set vi
                    ((s.voices.getD vi SynthVoice.EMPTY).start pow2 k p) } := by
      simp only [SynthInner.play_key, hvi]
    rw [hinner]
    refine ⟨⟨by simp [hw.1], hw.2.1, hw.2.2⟩, ?_, ?_⟩
    · intro i hi
      show ((s.voices.set vi
        ((s.voices.getD vi SynthVoice.EMPTY).start pow2 k p)).getD i
        SynthVoice.EMPTY).key < SynthInner.NUM_KEYS
      by_cases hieq : vi = i
      · subst hieq
        rw [listGetD_set_self _ _ _ _ (by rw [hw.1]; exact hviM),
          (start_fields pow2 _ k p).2.2]
        exact hklt
      · rw [listGetD_set_ne _ _ _ _ _ hieq]
        exact hkb i hi
    · intro k' i' h'
      replace h' : s.keys.getD k' SynthKeyState.Off =
          SynthKeyState.Playing i' := h'
      obtain ⟨hiM', hact', hkey', hstop'⟩ := hinv k' i' h'
      have hvget : ∀ j, (({ s with
            voices := s.voices.set vi
                        ((s.voices.getD vi SynthVoice.EMPTY).start pow2 k p) } :
          SynthInner R)).voices.getD j SynthVoice.EMPTY =
          (s.voices.set vi
            ((s.voices.getD vi SynthVoice.EMPTY).start pow2 k p)).getD j
            SynthVoice.EMPTY := fun j => rfl
      by_cases hieq : vi = i'
      · subst hieq
        have hk'k : k' = k := by rw [← hkey', hkey]
        subst hk'k
        refine ⟨hviM, ?_, ?_, ?_⟩ <;>
          rw [hvget vi, listGetD_set_self _ _ _ _ (by rw [hw.1]; exact hviM)]
        · exact (start_fields pow2 _ k' p).1
        · exact (start_fields pow2 _ k' p).2.2
        · exact (start_fields pow2 _ k' p).2.1
      · refine ⟨hiM', ?_, ?_, ?_⟩ <;>
          rw [hvget i', listGetD_set_ne _ _ _ _ _ hieq]
        · exact hact'
        · exact hkey'
        · exact hstop'
  · -- allocation path
    have hnp : ∀ i, s.keys.getD k SynthKeyState.Off ≠
        SynthKeyState.Playing i := fun i hc => hpl ⟨i, hc⟩
    obtain ⟨hlt, heq⟩ := play_key_alloc_spec pow2 s k p hnp hw.2.2
    rw [heq]
    have hstolen88 : (s.voices.getD s.get_new_voice.1 SynthVoice.EMPTY).key <
        SynthInner.NUM_KEYS := hkb _ hlt
    -- shorthand for the two possible key lists before the Playing entry
    have hK2len : (if (s.voices.getD s.get_new_voice.1
        SynthVoice.EMPTY).active = true
        then s.keys.set (s.voices.getD s.get_new_voice.1 SynthVoice.EMPTY).key
          SynthKeyState.VoiceStolen
        else s.keys).length = SynthInner.NUM_KEYS := by
      by_cases hvact : (s.voices.getD s.get_new_voice.1
          SynthVoice.EMPTY).active = true
      · rw [if_pos hvact]
        simp [hw.2.1]
      · rw [if_neg hvact]
        exact hw.2.1
    refine ⟨⟨by simp [hw.1], by simpa using hK2len,
      Nat.mod_lt _ (by decide)⟩, ?_, ?_⟩
    · intro i hi
      show ((s.voices.set s.get_new_voice.1
        ((s.voices.getD s.get_new_voice.1 SynthVoice.EMPTY).start pow2 k p)).getD
        i SynthVoice.EMPTY).key < SynthInner.NUM_KEYS
      by_cases hieq : s.get_new_voice.1 = i
      · subst hieq
        rw [listGetD_set_self _ _ _ _ (by rw [hw.1]; exact hlt),
          (start_fields pow2 _ k p).2.2]
        exact hklt
      · rw [listGetD_set_ne _ _ _ _ _ hieq]
        exact hkb i hi
    · intro k' i' h'
      replace h' : ((if (s.voices.getD s.get_new_voice.1
          SynthVoice.EMPTY).active = true
          then s.keys.set
            (s.voices.getD s.get_new_voice.1 SynthVoice.EMPTY).key
            SynthKeyState.VoiceStolen
          else s.keys).set k
            (SynthKeyState.Playing s.get_new_voice.1)).getD k'
          SynthKeyState.Off = SynthKeyState.Playing i' := h'
      have hvget : ∀ j, (({ s with
          voices := s.voices.set s.get_new_voice.1
                      ((s.voices.getD s.get_new_voice.1
                        SynthVoice.EMPTY).start pow2 k p),
          keys := (if (s.voices.getD s.get_new_voice.1
                        SynthVoice.EMPTY).active = true
                   then s.keys.set
                          (s.voices.getD s.get_new_voice.1
                            SynthVoice.EMPTY).key
                          SynthKeyState.VoiceStolen
                   else s.keys).set k
                    (SynthKeyState.Playing s.get_new_voice.1),
          next_voice := (s.get_new_voice.1 + 1) % SynthInner.MAX_VOICES } :
          SynthInner R)).voices.getD j SynthVoice.EMPTY =
          (s.voices.set s.get_new_voice.1
            ((s.voices.getD s.get_new_voice.1 SynthVoice.EMPTY).start pow2
              k p)).getD j SynthVoice.EMPTY := fun j => rfl
      by_cases hk'k : k = k'
      · subst hk'k
        rw [listGetD_set_self _ _ _ _ (by rw [hK2len]; exact hklt)] at h'
        cases h'
        refine ⟨hlt, ?_, ?_, ?_⟩ <;>
          rw [hvget s.get_new_voice.1,
            listGetD_set_self _ _ _ _ (by rw [hw.1]; exact hlt)]
        · exact (start_fields pow2 _ k p).1
        · exact (start_fields pow2 _ k p).2.2
        · exact (start_fields pow2 _ k p).2.1
      · rw [listGetD_set_ne _ _ _ _ _ hk'k] at h'
        by_cases hvact : (s.voices.getD s.get_new_voice.1
            SynthVoice.EMPTY).active = true
        · rw [if_pos hvact] at h'
          by_cases hk's : (s.voices.getD s.get_new_voice.1
              SynthVoice.EMPTY).key = k'
          · rw [← hk's] at h'
            rw [listGetD_set_self _ _ _ _
              (by rw [hw.2.1]; exact hstolen88)] at h'
            cases h'
          · rw [listGetD_set_ne _ _ _ _ _ hk's] at h'
            obtain ⟨hiM', hact', hkey', hstop'⟩ := hinv k' i' h'
            have hine : s.get_new_voice.1 ≠ i' := by
              intro hc
              rw [← hc] at hkey'
              exact hk's hkey'
            refine ⟨hiM', ?_, ?_, ?_⟩ <;>
              rw [hvget i', listGetD_set_ne _ _ _ _ _ hine]
            · exact hact'
            · exact hkey'
            · exact hstop'
        · rw [if_neg hvact] at h'
          obtain ⟨hiM', hact', hkey', hstop'⟩ := hinv k' i' h'
          have hine : s.get_new_voice.1 ≠ i' := by
            intro hc
            rw [← hc] at hact'
            exact hvact hact'
          refine ⟨hiM', ?_, ?_, ?_⟩ <;>
            rw [hvget i', listGetD_set_ne _ _ _ _ _ hine]
          · exact hact'
          · exact hkey'
          · exact hstop'

theorem reachable_invS {R : Type} [LinearOrderedField R] [FloorRing R]
    (pow2 sinR : R → R) (tau : R) (s : SynthInner R)
    (h : Reachable pow2 sinR tau s) : s.InvS := by
  induction h with
  | init => exact invS_new
  | play s k p _ ih => exact invS_play pow2 s k p ih
  | stop s k _ ih => exact invS_stop s k ih
  | instr s ins _ ih => exact invS_instr s ins ih
  | audio s len _ ih => exact invS_audio sinR tau s len ih

/-- C4: in every synth-engine state reachable from the initial state (all
voices inactive, all 88 keys Off) by any sequence of play_key, stop_key,
set_instrument and audio-callback gen_samples renderings, a key state
Playing i implies that voice i is active and that voice i's key field is
exactly that key; every operation preserves this invariant (the proof is by
induction over the reachability relation, i.e. by a preservation lemma for
each of the four operations). -/
theorem reachable_playing_invariant {R : Type} [LinearOrderedField R]
    [FloorRing R] (pow2 sinR : R → R) (tau : R) (s : SynthInner R)
    (h : Reachable pow2 sinR tau s) : s.KeyInv := by
  obtain ⟨_, _, hinv⟩ := reachable_invS pow2 sinR tau s h
  intro k i hki
  obtain ⟨_, ha, hk, _⟩ := hinv k i hki
  exact ⟨ha, hk⟩

theorem reachable_playing_invariant_witness :
    (SynthKeyboard.play_key (fun _ => (0 : ℚ)) SynthInner.new 5 100).KeyInv :=
  reachable_playing_invariant (fun _ => (0 : ℚ)) (fun _ => (0 : ℚ)) 0 _
    (Reachable.play SynthInner.new 5 100 Reachable.init)

/-! ### MIDI connection manager (midi_reader.rs)

MidiConnector::run repeatedly invokes run_step while its stop flag is
false.  One run_step first selects a port whose name contains one of the
accepted patterns (Searching), connects to it, and on success records the
port name, emits PortConnected once, and enters a command/poll loop
(Connected) that runs until it returns from run_step, closing the
connection on every exit path of that loop.  The embedding makes the
environment explicit: the enumerated ports are a list of Option String (a
none entry is a port whose name query fails, which
has_connected_midi_in_port treats as a disconnect and select_midi_in_port
propagates as a failed selection); the command channel outcome of one
recv_timeout is a RecvResult; the success of MidiInput::connect is a
boolean input; and the inner loop consumes one (RecvResult, ports) pair per
iteration.  The returned Option Bool is none while the loop is still
running (awaiting more input) and some stop on exit from run_step, with
stop mirroring MidiReaderData::stop (true terminates the manager; false
returns to Searching on the next run_step). -/

structure MidiConnector where
  accepted_midi_ports : List String
  sleep_time_millis : Nat
  connected_port_name : Option String
  deriving DecidableEq

inductive MidiReaderCommand where
  | Close
  | ConfigAcceptedPorts (accepted_midi_ports : List String)
  | ConfigSleepTime (sleep_time_millis : Nat)
  deriving DecidableEq

/-- Outcome of one recv_timeout on the command channel: a command, a severed
channel, or a timeout (the poll tick with no command). -/
inductive RecvResult where
  | ok (cmd : MidiReaderCommand)
  | disconnected
  | timeout
  deriving DecidableEq

def match_here : List Char → List Char → Bool
  | [], _ => true
  | _ :: _, [] => false
  | a :: as, b :: bs => a == b && match_here as bs

def has_sub (needle : List Char) : List Char → Bool
  | [] => match_here needle []
  | b :: bs => match_here needle (b :: bs) || has_sub needle bs

/-- Embedding of str::contains(pattern): pat occurs as a contiguous
substring of s. -/
def str_contains (s pat : String) : Bool := has_sub pat.data s.data

/-- Embedding of MidiConnector::has_connected_midi_in_port's port scan: walk
the enumerated ports; a port whose name query fails makes the whole check
false, a port whose name equals the recorded name makes it true. -/
def port_name_matches (name : String) : List (Option String) → Bool
  | [] => false
  | none :: _ => false
  | some p :: rest => if p == name then true else port_name_matches name rest

/-- Embedding of MidiConnector::has_connected_midi_in_port. -/
def has_connected_midi_in_port (c : MidiConnector)
    (ports : List (Option String)) : Bool :=
  match c.connected_port_name with
  | some connected_port_name => port_name_matches connected_port_name ports
  | none => false

/-- Embedding of MidiConnector::select_midi_in_port: the first enumerated
port whose name contains any accepted pattern as a substring; a failing
name query aborts the selection with an error. -/
def select_midi_in_port (patterns : List String) :
    Nat → List (Option String) → Option (Nat × String)
  | _, [] => none
  | _, none :: _ => none
  | idx, some p :: rest =>
    if patterns.any (fun a => str_contains p a) then some (idx, p)
    else select_midi_in_port patterns (idx + 1) rest

/-- Outcome of one iteration of the connected loop: keep the connection and
loop again, or return from run_step (which closes the connection) with the
given stop flag. -/
inductive ConnOutcome where
  | continue_loop
  | exit_reader (stop : Bool)
  deriving DecidableEq

/-- Embedding of one iteration of the connected loop inside
MidiConnector::run_step: the recv_timeout outcome is handled first (Close or
a severed channel emit PortDisconnected and stop; a pattern
reconfiguration emits PortDisconnected and returns to searching; a
sleep-time reconfiguration only updates the state), then the port check
runs: if the recorded port name is no longer among the enumerated ports,
emit PortDisconnected, clear the recorded name and return to searching. -/
def connected_step (c : MidiConnector) (cmd : RecvResult)
    (ports : List (Option String)) :
    List MidiMessage × MidiConnector × ConnOutcome :=
  match cmd with
  | .ok .Close | .disconnected =>
    ([.PortDisconnected], { c with connected_port_name := none },
     .exit_reader true)
  | .ok (.ConfigAcceptedPorts ps) =>
    ([.PortDisconnected],
     { c with accepted_midi_ports := ps, connected_port_name := none },
     .exit_reader false)
  | .ok (.ConfigSleepTime t) =>
    let c' := { c with sleep_time_millis := t }
    if has_connected_midi_in_port c' ports then ([], c', .continue_loop)
    else ([.PortDisconnected], { c' with connected_port_name := none },
      .exit_reader false)
  | .timeout =>
    if has_connected_midi_in_port c ports then ([], c, .continue_loop)
    else ([.PortDisconnected], { c with connected_port_name := none },
      .exit_reader false)

/-- The connected loop of run_step, consuming one environment input per
iteration and accumulating the emitted messages. -/
def run_step_loop (c : MidiConnector) :
    List (RecvResult × List (Option String)) →
    List MidiMessage × MidiConnector × Option Bool
  | [] => ([], c, none)
  | (cmd, ports) :: rest =>
    let r := connected_step c cmd ports
    match r.2.2 with
    | .continue_loop =>
      let r2 := run_step_loop r.2.1 rest
      (r.1 ++ r2.1, r2.2)
    | .exit_reader stop => (r.1, r.2.1, some stop)

/-- Embedding of MidiConnector::run_step: port selection, the searching
command handling when no port matches, the connect attempt, and on success
the PortConnected emission, the recording of the port name and the
connected loop. -/
def run_step (c : MidiConnector) (ports : List (Option String))
    (search_cmd : RecvResult) (connect_ok : Bool)
    (loop_inputs : List (RecvResult × List (Option String))) :
    List MidiMessage × MidiConnector × Option Bool :=
  match select_midi_in_port c.accepted_midi_ports 0 ports with
  | none =>
    match search_cmd with
    | .ok .Close | .disconnected => ([], c, some true)
    | .ok (.ConfigAcceptedPorts ps) =>
      ([], { c with accepted_midi_ports := ps }, some false)
    | .ok (.ConfigSleepTime t) =>
      ([], { c with sleep_time_millis := t }, some false)
    | .timeout => ([], c, some false)
  | some (_idx, in_port_name) =>
    if connect_ok then
      let r := run_step_loop
        { c with connected_port_name := some in_port_name } loop_inputs
      (MidiMessage.PortConnected :: r.1, r.2)
    else
      ([], { c with connected_port_name := none }, some false)

theorem port_name_matches_eq_false (name : String)
    (ports : List (Option String)) (h : ∀ p ∈ ports, p ≠ some name) :
    port_name_matches name ports = false := by
  induction ports with
  | nil => rfl
  | cons p rest ih =>
    cases p with
    | none => rfl
    | some q =>
      have hq : some q ≠ some name := h (some q) (List.mem_cons_self _ _)
      have hqname : (q == name) = false := by
        rw [beq_eq_false_iff_ne]
        intro hc
        exact hq (by rw [hc])
      simp only [port_name_matches, hqname]
      exact ih fun p hp => h p (List.mem_cons_of_mem _ hp)

theorem select_midi_in_port_first (patterns : List String) :
    ∀ (ports : List (Option String)) (idx i : Nat) (name : String),
      select_midi_in_port patterns idx ports = some (i, name) →
      ∃ j, i = idx + j ∧ ports.get? j = some (some name) ∧
        patterns.any (fun a => str_contains name a) = true ∧
        ∀ j', j' < j → ∃ q, ports.get? j' = some (some q) ∧
          patterns.any (fun a => str_contains q a) = false := by
  intro ports
  induction ports with
  | nil => intro idx i name h; cases h
  | cons p rest ih =>
    intro idx i name h
    cases p with
    | none => cases h
    | some q =>
      by_cases hm : patterns.any (fun a => str_contains q a) = true
      · rw [show select_midi_in_port patterns idx (some q :: rest) =
            if patterns.any (fun a => str_contains q a) then some (idx, q)
            else select_midi_in_port patterns (idx + 1) rest from rfl,
          if_pos hm] at h
        injection h with h'
        injection h' with h1 h2
        subst h1
        subst h2
        exact ⟨0, by omega, rfl, hm, fun j' hj' => absurd hj' (by omega)⟩
      · rw [show select_midi_in_port patterns idx (some q :: rest) =
            if patterns.any (fun a => str_contains q a) then some (idx, q)
            else select_midi_in_port patterns (idx + 1) rest from rfl,
          if_neg hm] at h
        obtain ⟨j, hj1, hj2, hj3, hj4⟩ := ih (idx + 1) i name h
        refine ⟨j + 1, by omega, by simpa using hj2, hj3, ?_⟩
        intro j' hj'
        cases j' with
        | zero =>
          exact ⟨q, rfl, by simpa using hm⟩
        | succ j'' =>
          have := hj4 j'' (by omega)
          simpa using this

/-- C7: first part (disconnect detection): while the manager records a
connected port name, on a poll step of the connected loop in which no
command arrived (timeout) and the recorded name is not among the currently
enumerated port names, the loop emits exactly one PortDisconnected, clears
the recorded name and returns from run_step (closing the connection) with
stop = false, i.e. returning to the Searching phase of the next run_step.
Second part (connection): when port selection finds (i, name) and the
connect attempt succeeds, run_step emits exactly one PortConnected (here
observed with an empty remaining input trace: the loop is still running and
nothing else was emitted) and records the name; moreover the selected port
is the first enumerated one whose name contains a configured pattern as a
substring: port i has that name, the name contains one of the accepted
patterns, and every earlier port has a name that matches no pattern. -/
theorem connection_manager_lifecycle (c : MidiConnector) (name : String)
    (ports : List (Option String)) :
    (c.connected_port_name = some name →
      (∀ p ∈ ports, p ≠ some name) →
      connected_step c .timeout ports =
        ([.PortDisconnected], { c with connected_port_name := none },
         .exit_reader false)) ∧
    (∀ (i : Nat),
      select_midi_in_port c.accepted_midi_ports 0 ports = some (i, name) →
      run_step c ports .timeout true [] =
        ([.PortConnected], { c with connected_port_name := some name },
         none) ∧
      ports.get? i = some (some name) ∧
      c.accepted_midi_ports.any (fun a => str_contains name a) = true ∧
      ∀ j, j < i → ∃ q, ports.get? j = some (some q) ∧
        c.accepted_midi_ports.any (fun a => str_contains q a) = false) := by
  constructor
  · intro hconn hgone
    have hno : has_connected_midi_in_port c ports = false := by
      unfold has_connected_midi_in_port
      rw [hconn]
      exact port_name_matches_eq_false name ports hgone
    simp only [connected_step, hno]
    rfl
  · intro i hsel
    obtain ⟨j, hji, hj2, hj3, hj4⟩ :=
      select_midi_in_port_first c.accepted_midi_ports ports 0 i name hsel
    have hij : i = j := by omega
    subst hij
    refine ⟨?_, hj2, hj3, hj4⟩
    unfold run_step
    rw [hsel]
    rfl

theorem connection_manager_lifecycle_witness :
    ((⟨["USB"], 10, some "USB MIDI Device"⟩ :
        MidiConnector).connected_port_name = some "USB MIDI Device") ∧
    (∀ p ∈ ([some "Other Port"] : List (Option String)),
      p ≠ some "USB MIDI Device") ∧
    connected_step (⟨["USB"], 10, some "USB MIDI Device"⟩ : MidiConnector)
        .timeout [some "Other Port"] =
      ([.PortDisconnected],
       { (⟨["USB"], 10, some "USB MIDI Device"⟩ : MidiConnector) with
          connected_port_name := none },
       .exit_reader false) := by
  refine ⟨rfl, by decide, ?_⟩
  exact (connection_manager_lifecycle
    (⟨["USB"], 10, some "USB MIDI Device"⟩ : MidiConnector)
    "USB MIDI Device" [some "Other Port"]).1 rfl (by decide)

end KeySynth
